import Mathlib

/-!
Verification development for the FinancialAgentia python backend
(`dexter_py`).  The relevant parts of the code are shallowly embedded as
executable Lean definitions, and the specified behaviours are settled as
theorems about those definitions.

Conventions of the embedding:
* Python dynamic values are modelled by the inductive `PVal` (strings,
  booleans, rational numbers, lists, dicts as association lists, `None`,
  and async-generator streams of chunks).
* Machine floats of the scoring code are modelled as rationals; cosine
  similarities, which numpy computes from the embedding vectors, enter
  the model as an explicit list of scores (one per message).
* Fallible code returns `Except String`; `asyncio` locks of the
  single-threaded event loop are modelled by identity tokens.
-/

namespace Dexter

/-- Dynamic Python value, as used by tool / task / phase results.
`stream` models an async generator of chunks (the only place the
orchestrator consumes one is while collecting the final answer). -/
inductive PVal where
  | str (s : String)
  | bool (b : Bool)
  | num (q : ℚ)
  | list (xs : List PVal)
  | dict (kvs : List (String × PVal))
  | pynone
  | stream (chunks : List PVal)

namespace PVal

/-- Python truthiness of a `PVal` (`bool(v)`). -/
def truthy : PVal → Bool
  | .str s => s != ""
  | .bool b => b
  | .num q => q != 0
  | .list xs => !xs.isEmpty
  | .dict kvs => !kvs.isEmpty
  | .pynone => false
  | .stream _ => true

/-- `d.get(key)` on a dict value: first binding wins (our dict literals
never contain duplicate keys), `none` when the key is absent or the
value is not a dict. -/
def get? : PVal → String → Option PVal
  | .dict kvs, k => (kvs.find? (fun kv => kv.1 == k)).map Prod.snd
  | _, _ => none

/-- `isinstance(v, dict)`. -/
def isDict : PVal → Bool
  | .dict _ => true
  | _ => false

end PVal

/-! ## String helpers

These re-implement, over plain character lists, the handful of Python
string operations the embedded code uses, so that every definition
evaluates by kernel reduction. -/

/-- The characters Python's `\s` (and JSON whitespace) covers here
(the rarely seen form-feed and vertical-tab members are omitted). -/
def isWsChar (c : Char) : Bool :=
  c = ' ' || c = '\t' || c = '\n' || c = '\r'

/-- Python `str.strip()` on these whitespace characters. -/
def pyStrip (s : String) : String :=
  String.mk ((s.toList.dropWhile isWsChar).reverse.dropWhile isWsChar).reverse

/-- `s.startswith(pre)`. -/
def strStartsWith (s pre : String) : Bool :=
  pre.toList.isPrefixOf s.toList

/-- Python `s.split("\n")`. -/
def splitLines (s : String) : List String :=
  go s.toList []
where
  go : List Char → List Char → List String
    | [], acc => [String.mk acc.reverse]
    | c :: rest, acc =>
      if c = '\n' then String.mk acc.reverse :: go rest []
      else go rest (c :: acc)

/-- Python `"\n".join(lines)`. -/
def joinLines : List String → String
  | [] => ""
  | l :: rest => rest.foldl (fun acc x => acc ++ "\n" ++ x) l

/-! ## Conversation memory (`dexter_py/utils/message_history.py`) -/

/-- One immutable conversation turn (`Message` dataclass).  The
`datetime` timestamp is modelled as an abstract natural-number clock
value supplied by the caller of `addMessage`. -/
structure Message where
  id : ℕ
  query : String
  answer : String
  summary : String
  timestamp : ℕ
  deriving DecidableEq, Repr

instance : Inhabited Message := ⟨⟨0, "", "", "", 0⟩⟩

/-- `HistoryConfig`: bounds for stored messages. -/
structure HistoryConfig where
  maxMessages : ℕ := 100
  pruneThreshold : ℕ := 120
  pruneTo : ℕ := 80
  tokenLimitPerMessage : ℕ := 400
  deriving DecidableEq, Repr

/-- Mutable state of a `MessageHistory` instance: the ordered turn list
and the monotonic id counter (`_messages`, `_next_id`), together with
its configuration.  The pluggable summarizer is passed explicitly to
`addMessage`; persistence through the message store does not affect the
in-memory state and is not represented. -/
structure MessageHistory where
  messages : List Message
  nextId : ℕ
  config : HistoryConfig
  deriving DecidableEq, Repr

namespace MessageHistory

/-- A freshly constructed `MessageHistory` (`__init__`). -/
def empty (cfg : HistoryConfig) : MessageHistory :=
  { messages := [], nextId := 0, config := cfg }

/-- `MessageHistory._prune_messages`: drop the oldest messages, keeping
the most recent `prune_to` many, unless already within the bound. -/
def pruneMessages (h : MessageHistory) : MessageHistory :=
  if h.messages.length ≤ h.config.pruneTo then h
  else { h with messages := h.messages.drop (h.messages.length - h.config.pruneTo) }

/-- `MessageHistory.add_message`: validate non-empty query/answer,
resolve the summary (a falsy `custom_summary` falls back to the
summarizer), append a message carrying the next id, bump the counter,
and prune once the stored count reaches `prune_threshold`.  Persistence
(`_persist`) swallows its own errors and does not change the in-memory
state, so it is omitted.  Validation failures raise `ValueError`,
modelled as `Except.error` with the state unchanged. -/
def addMessage (h : MessageHistory) (query answer : String)
    (customSummary : Option String) (summarize : String → String → String)
    (now : ℕ) : Except String (MessageHistory × Message) :=
  if query = "" then .error "query must be a non-empty string"
  else if answer = "" then .error "answer must be a non-empty string"
  else
    let summary :=
      match customSummary with
      | some s => if s = "" then summarize query answer else s
      | none => summarize query answer
    let message : Message :=
      { id := h.nextId, query := query, answer := answer,
        summary := summary, timestamp := now }
    let h' : MessageHistory :=
      { h with messages := h.messages ++ [message], nextId := h.nextId + 1 }
    let h'' :=
      if h.config.pruneThreshold ≤ h'.messages.length then h'.pruneMessages else h'
    .ok (h'', message)

/-- `MessageHistory.clear`: drop all messages and reset the id counter
to zero. -/
def clear (h : MessageHistory) : MessageHistory :=
  { h with messages := [], nextId := 0 }

end MessageHistory

/-! ## Relevance selection (`RelevanceSelector`) -/

/-- `RelevanceConfig`. -/
structure RelevanceConfig where
  maxMessages : ℕ := 10
  similarityThreshold : ℚ := 3/10
  recencyWeight : ℚ := 3/10
  useEmbeddings : Bool := true
  deriving DecidableEq, Repr

/-- Python's negative-index slice `xs[-k:]`: the last `k` elements,
except that `k = 0` denotes `xs[0:]`, i.e. the whole list. -/
def lastSlice (k : ℕ) (xs : List α) : List α :=
  if k = 0 then xs else xs.drop (xs.length - k)

namespace RelevanceSelector

/-- Recency score of position `i` among `n` messages: linear from 0
(oldest) to 1 (newest); `np.ones(1)` when there is a single message. -/
def recencyScore (n i : ℕ) : ℚ :=
  if n ≤ 1 then 1 else (i : ℚ) / ((n : ℚ) - 1)

/-- Hybrid score of position `i`: `(1 - w) * similarity + w * recency`. -/
def hybridScore (cfg : RelevanceConfig) (sims : List ℚ) (n i : ℕ) : ℚ :=
  (1 - cfg.recencyWeight) * sims.getD i 0 + cfg.recencyWeight * recencyScore n i

/-- `RelevanceSelector._select_by_hybrid_score`, with the cosine
similarities that numpy computes from the embeddings supplied as the
list `sims` (one score per message, in message order).  Indices whose
similarity reaches the threshold are ranked by hybrid score descending
(`np.argsort(-valid_scores)`; ties in an unspecified order, here by
original index), the top `max_messages` are kept and re-sorted into
chronological order. -/
def validIndices (cfg : RelevanceConfig) (sims : List ℚ) (n : ℕ) : List ℕ :=
  (List.range n).filter fun i => cfg.similarityThreshold ≤ sims.getD i 0

def selectByHybridScore (cfg : RelevanceConfig) (msgs : List Message)
    (sims : List ℚ) : List Message :=
  let n := msgs.length
  let valid := validIndices cfg sims n
  if valid.isEmpty then lastSlice cfg.maxMessages msgs
  else
    let sorted := valid.insertionSort fun a b =>
      hybridScore cfg sims n b ≤ hybridScore cfg sims n a
    let top := sorted.take cfg.maxMessages
    let chron := top.insertionSort (· ≤ ·)
    chron.map fun i => msgs.getD i default

/-- `RelevanceSelector.select`.  `simsOutcome = none` models an
exception escaping the embedding / scoring block (provider failure),
which degrades to the most recent `max_messages` messages. -/
def select (cfg : RelevanceConfig) (msgs : List Message)
    (simsOutcome : Option (List ℚ)) : List Message :=
  if msgs.isEmpty then []
  else if msgs.length ≤ cfg.maxMessages then msgs
  else if !cfg.useEmbeddings then lastSlice cfg.maxMessages msgs
  else
    match simsOutcome with
    | none => lastSlice cfg.maxMessages msgs
    | some sims => selectByHybridScore cfg msgs sims

end RelevanceSelector

/-! ## Tool and task execution (`tool_executor.py`, `task_executor.py`) -/

mutual

/-- Python `==` on modelled values (used for dict-key lookups). -/
def PVal.beq : PVal → PVal → Bool
  | .str a, .str b => a == b
  | .bool a, .bool b => a == b
  | .num a, .num b => a == b
  | .list as, .list bs => PVal.beqList as bs
  | .dict as, .dict bs => PVal.beqDict as bs
  | .pynone, .pynone => true
  | .stream as, .stream bs => PVal.beqList as bs
  | _, _ => false

def PVal.beqList : List PVal → List PVal → Bool
  | [], [] => true
  | a :: as, b :: bs => PVal.beq a b && PVal.beqList as bs
  | _, _ => false

def PVal.beqDict : List (String × PVal) → List (String × PVal) → Bool
  | [], [] => true
  | (k, v) :: as, (l, w) :: bs => k == l && PVal.beq v w && PVal.beqDict as bs
  | _, _ => false

end

instance : BEq PVal := ⟨PVal.beq⟩

/-- A keyed result map with Python dict semantics: assignment to an
existing key updates it in place, a new key is appended (insertion
order preserved). -/
abbrev ResultMap := List (PVal × PVal)

namespace ResultMap

def keys (m : ResultMap) : List PVal := m.map Prod.fst

def hasKey (m : ResultMap) (k : PVal) : Bool := m.keys.any (PVal.beq k)

/-- `m[k] = v`. -/
def set (m : ResultMap) (k v : PVal) : ResultMap :=
  if m.hasKey k then m.map fun kv => if PVal.beq k kv.1 then (kv.1, v) else kv
  else m ++ [(k, v)]

def get? (m : ResultMap) (k : PVal) : Option PVal :=
  (m.find? fun kv => PVal.beq k kv.1).map Prod.snd

end ResultMap

/-- A registered tool: its optional `run` method, modelled as a function
from keyword arguments to a result (`Except.error` models an exception
raised by the tool). -/
structure ToolDef where
  run : Option (List (String × PVal) → Except String PVal)

/-- `ToolExecutor.execute_tool`: validates the tool name and arguments,
looks the tool up in the registry, and never lets an exception escape —
failures come back as `{error, failed: true}` dicts.  A tool without a
`run` method gets the stub result. -/
def executeTool (registry : List (String × ToolDef)) (toolName : String)
    (args : Option PVal) : PVal :=
  if pyStrip toolName = "" then
    .dict [("tool", .pynone), ("error", .str "Invalid tool name"), ("failed", .bool true)]
  else
    let argsDict : Option (List (String × PVal)) :=
      match args with
      | none => some []
      | some (.dict kvs) => some kvs
      | some _ => none
    match argsDict with
    | none =>
        .dict [("tool", .str toolName),
               ("error", .str "Arguments must be a dictionary"), ("failed", .bool true)]
    | some kwargs =>
      match registry.find? (fun t => t.1 == toolName) with
      | none =>
          .dict [("tool", .str toolName),
                 ("error", .str "Tool not found"), ("failed", .bool true)]
      | some (_, tool) =>
        match tool.run with
        | none =>
            .dict [("tool", .str toolName),
                   ("result", .dict [("args", .dict kwargs), ("stub", .bool true)])]
        | some f =>
          match f kwargs with
          | .ok result => .dict [("tool", .str toolName), ("result", result)]
          | .error exc =>
              .dict [("tool", .str toolName), ("error", .str exc), ("failed", .bool true)]

/-- Keys a Python dict cannot hash (`list` / `dict` task ids raise
`TypeError` on assignment, which escapes `execute_tasks`). -/
def PVal.unhashable : PVal → Bool
  | .list _ => true
  | .dict _ => true
  | _ => false

/-- `TaskExecutor.execute_tasks`: walk `plan["tasks"]` in order and
store, for every well-formed task, the stub result
`{task_id, output: description, metadata}` under its id.  The tool
registry is never consulted.  A non-dict `plan` raises
(`plan.get` → `AttributeError`), modelled as `Except.error`; non-list
`tasks` returns with no change; non-dict tasks and tasks without an id
are skipped. -/
def executeTasks (plan : PVal) (taskResults : ResultMap) :
    Except String ResultMap := do
  if !plan.isDict then throw "AttributeError: plan has no attribute get"
  let tasks := (plan.get? "tasks").getD (.list [])
  match tasks with
  | .list taskList =>
    let mut results := taskResults
    for task in taskList do
      if task.isDict then
        match task.get? "id" with
        | none => pure ()
        | some .pynone => pure ()
        | some taskId =>
          if taskId.unhashable then
            throw "TypeError: unhashable type"
          else
            let description := (task.get? "description").getD (.str "")
            let metadata := (task.get? "metadata").getD (.dict [])
            let result : PVal :=
              .dict [("task_id", taskId), ("output", description), ("metadata", metadata)]
            results := results.set taskId result
    return results
  | _ => return taskResults

/-! ## Stop reasons and the reflection analyzer (`orchestrator.py`) -/

/-- `StopReason` enum. -/
inductive StopReason where
  | reflectionComplete
  | maxIterations
  | noProgress
  | highConfidence
  | timeout
  | error
  deriving DecidableEq, Repr

/-- Python comparison `v > q` for the confidence check.  `confidence`
defaults to `0` when absent; numbers and booleans (`bool` is an `int`
subtype) compare numerically.  A non-numeric stored confidence would
raise `TypeError` in Python; such reflections are outside this model
and are treated as not exceeding the threshold. -/
def confidenceExceeds (v : Option PVal) (q : ℚ) : Bool :=
  match v with
  | some (.num c) => q < c
  | some (.bool b) => q < if b then 1 else 0
  | _ => false

/-- `ReflectionAnalyzer.should_continue`: the first matching rule wins.
Note the guards exactly as coded: the no-progress rule fires only when
`iteration > 1` *and* the snapshot is truthy (present and non-empty),
and it checks that no *new* keys appeared (current keys all contained
in the snapshot), not that the key sets are equal. -/
def shouldContinue (reflection : PVal) (iteration maxIterations : ℕ)
    (taskResults : ResultMap) (snapshot : Option ResultMap) :
    Bool × Option StopReason :=
  if reflection.isDict && ((reflection.get? "is_complete").getD .pynone).truthy then
    (false, some .reflectionComplete)
  else if maxIterations ≤ iteration then
    (false, some .maxIterations)
  else if 1 < iteration &&
      (match snapshot with
       | some snap => !snap.isEmpty &&
           taskResults.keys.all fun k => snap.keys.any (PVal.beq k)
       | none => false) then
    (false, some .noProgress)
  else if reflection.isDict && confidenceExceeds (reflection.get? "confidence") (9/10) then
    (false, some .highConfidence)
  else
    (true, none)

/-! ## Run metrics and the per-phase timeout wrapper -/

/-- `RunMetrics` (the fields the control flow reads or writes; wall
times are carried as rational durations, the start/end timestamps and
error contexts are not represented). -/
structure RunMetrics where
  runId : String
  query : String
  iterations : ℕ := 0
  phaseTimings : List (String × ℚ) := []
  phaseAttempts : List (String × ℕ) := []
  toolCalls : ℕ := 0
  errors : List (String × String) := []
  stopReason : Option StopReason := none
  deriving Repr

namespace RunMetrics

/-- Bump an association-list counter: `d[k] = d.get(k, 0) + v`. -/
def bump [Add α] [Zero α] (d : List (String × α)) (k : String) (v : α) :
    List (String × α) :=
  if d.any (fun kv => kv.1 == k) then
    d.map fun kv => if kv.1 == k then (kv.1, kv.2 + v) else kv
  else d ++ [(k, v)]

/-- `RunMetrics.record_phase`: accumulate the duration and count the
attempt. -/
def recordPhase (m : RunMetrics) (phase : String) (duration : ℚ) : RunMetrics :=
  { m with phaseTimings := bump m.phaseTimings phase duration,
           phaseAttempts := bump m.phaseAttempts phase 1 }

/-- `RunMetrics.record_error`. -/
def recordError (m : RunMetrics) (phase error : String) : RunMetrics :=
  { m with errors := m.errors ++ [(phase, error)] }

/-- `RunMetrics.finalize`. -/
def finalize (m : RunMetrics) (reason : StopReason) : RunMetrics :=
  { m with stopReason := some reason }

def attempts (m : RunMetrics) (phase : String) : ℕ :=
  ((m.phaseAttempts.find? fun kv => kv.1 == phase).map Prod.snd).getD 0

def timing (m : RunMetrics) (phase : String) : ℚ :=
  ((m.phaseTimings.find? fun kv => kv.1 == phase).map Prod.snd).getD 0

end RunMetrics

/-- How one awaited phase execution ends, with the wall-clock duration
observed by the wrapper: a result, `asyncio.TimeoutError` from
`asyncio.wait_for`, or some other exception. -/
inductive PhaseOutcome where
  | ok (v : PVal) (duration : ℚ)
  | timeout (duration : ℚ)
  | exn (msg : String) (duration : ℚ)

/-- `Orchestrator._run_phase_with_timeout`: a completed phase passes
its result through; a deadline hit is absorbed into the structured
failure `{error, failed: true, timeout: true}`; any other exception
into `{error, failed: true}`.  All three paths record the attempt and
its duration. -/
def runPhaseWithTimeout (phaseName : String) (timeoutS : ℕ)
    (outcome : PhaseOutcome) (m : RunMetrics) : PVal × RunMetrics :=
  match outcome with
  | .ok v d => (v, m.recordPhase phaseName d)
  | .timeout d =>
    let msg := s!"{phaseName} phase timeout after {timeoutS}s"
    (.dict [("error", .str msg), ("failed", .bool true), ("timeout", .bool true)],
     (m.recordPhase phaseName d).recordError phaseName msg)
  | .exn e d =>
    (.dict [("error", .str e), ("failed", .bool true)],
     (m.recordPhase phaseName d).recordError phaseName e)

/-! ## Session store (`InMemorySessionStore`) -/

/-- `InMemorySessionStore`: histories and per-key asyncio locks.  Lock
objects are modelled by identity tokens drawn from `nextLock`, so "the
same lock object" is "the same token". -/
structure SessionStore where
  store : List (String × MessageHistory) := []
  locks : List (String × ℕ) := []
  nextLock : ℕ := 0
  deriving Repr

namespace SessionStore

def get (s : SessionStore) (key : String) : Option MessageHistory :=
  (s.store.find? fun kv => kv.1 == key).map Prod.snd

def set (s : SessionStore) (key : String) (value : MessageHistory) : SessionStore :=
  if s.store.any (fun kv => kv.1 == key) then
    { s with store := s.store.map fun kv => if kv.1 == key then (kv.1, value) else kv }
  else { s with store := s.store ++ [(key, value)] }

/-- `InMemorySessionStore.delete`: pops the history *and* the per-key
lock. -/
def delete (s : SessionStore) (key : String) : SessionStore :=
  { s with store := s.store.filter fun kv => kv.1 != key,
           locks := s.locks.filter fun kv => kv.1 != key }

/-- `InMemorySessionStore.get_lock`: lazily create the per-key lock on
first request, then hand back the stored one. -/
def getLock (s : SessionStore) (key : String) : ℕ × SessionStore :=
  match (s.locks.find? fun kv => kv.1 == key).map Prod.snd with
  | some l => (l, s)
  | none =>
    (s.nextLock,
     { s with locks := s.locks ++ [(key, s.nextLock)], nextLock := s.nextLock + 1 })

def lockOf (s : SessionStore) (key : String) : Option ℕ :=
  (s.locks.find? fun kv => kv.1 == key).map Prod.snd

end SessionStore

/-- A store operation issued by some client between two `get_lock`
calls (used to state lock stability). -/
inductive StoreOp where
  | get (key : String)
  | set (key : String) (value : MessageHistory)
  | delete (key : String)
  | getLock (key : String)
  deriving DecidableEq

/-- Apply one operation to the store state. -/
def SessionStore.applyOp (s : SessionStore) : StoreOp → SessionStore
  | .get _ => s
  | .set k v => s.set k v
  | .delete k => s.delete k
  | .getLock k => (s.getLock k).2

def SessionStore.applyOps (s : SessionStore) (ops : List StoreOp) : SessionStore :=
  ops.foldl SessionStore.applyOp s

/-! ## The orchestrator run (`Orchestrator.run`) -/

/-- Modelled from the spec: `MessageHistory.add_agent_message`, which
`Orchestrator.run` and the memory-fix tests call but which is not
defined in the available sources.  Per spec step 7 and the `AddTurn`
contract it appends `(query, answer)` as a new turn to the memory:
non-empty validation, summary from the configured summarizer, id
assignment, pruning and persistence — i.e. `add_message` with no custom
summary. -/
def MessageHistory.addAgentMessage (h : MessageHistory) (query answer : String)
    (summarize : String → String → String) (now : ℕ) :
    Except String MessageHistory :=
  (h.addMessage query answer none summarize now).map Prod.fst

/-- The environment of one `Orchestrator.run` call: the request, the
resolved options, and the outcome of every awaited phase execution
(phases drive an external LLM; their results enter the model as
explicit outcomes, per iteration for the looped phases). -/
structure RunEnv where
  runId : String
  query : String
  sessionId : Option String
  skipPhases : List String
  maxIterations : ℕ
  phaseTimeouts : List (String × ℕ)
  historyConfig : HistoryConfig
  understandOutcome : PhaseOutcome
  planOutcome : ℕ → PhaseOutcome
  reflectOutcome : ℕ → PhaseOutcome
  answerOutcome : PhaseOutcome
  summarize : String → String → String
  now : ℕ

/-- `self.phase_timeouts.get(phase_name, 60)`. -/
def RunEnv.timeoutFor (env : RunEnv) (name : String) : ℕ :=
  ((env.phaseTimeouts.find? fun kv => kv.1 == name).map Prod.snd).getD 60

/-- `Orchestrator._get_or_create_history`: no session id gives a fresh
isolated history; otherwise the session's lock is taken (created
lazily), and the stored history is fetched, or a fresh one is created
and stored. -/
def getOrCreateHistory (env : RunEnv) (store : SessionStore) :
    MessageHistory × SessionStore :=
  match env.sessionId with
  | none => (MessageHistory.empty env.historyConfig, store)
  | some sid =>
    let store1 := (store.getLock sid).2
    match store1.get sid with
    | some h => (h, store1)
    | none =>
      let h := MessageHistory.empty env.historyConfig
      (h, store1.set sid h)

/-- `Orchestrator._save_history`: nothing without a session id;
otherwise re-acquire the key's lock and store the history. -/
def saveHistory (env : RunEnv) (store : SessionStore) (h : MessageHistory) :
    SessionStore :=
  match env.sessionId with
  | none => store
  | some sid => ((store.getLock sid).2).set sid h

/-- `metrics.tool_calls`: keys of the accumulated result map that do
not start with `__` (task ids are strings in practice; a non-string key
is counted). -/
def countToolCalls (r : ResultMap) : ℕ :=
  (r.keys.filter fun k =>
    match k with
    | .str s => !strStartsWith s "__"
    | _ => true).length

/-- `ReflectPhase.build_planning_guidance`:
`reflection.get("suggested_next_steps")`. -/
def buildPlanningGuidance (reflection : PVal) : PVal :=
  (reflection.get? "suggested_next_steps").getD .pynone

/-- State threaded through the Plan → Execute → Reflect loop.
`execCount` instruments how many times the execute section ran. -/
structure LoopState where
  taskResults : ResultMap
  completedPlans : List PVal
  guidance : PVal
  metrics : RunMetrics
  execCount : ℕ

/-- One-plus-rest unfolding of the `while iteration <= max_iterations`
loop; `fuel` is `max_iterations - iteration + 1` at entry, so the loop
guard holds exactly while fuel is positive. -/
def runLoop (env : RunEnv) : ℕ → ℕ → LoopState → LoopState
  | 0, _, st => st
  | fuel + 1, iter, st =>
    let m := { st.metrics with iterations := iter }
    let snapshot := st.taskResults
    let (plan, m) :=
      if "plan" ∉ env.skipPhases then
        runPhaseWithTimeout "plan" (env.timeoutFor "plan") (env.planOutcome iter) m
      else (.dict [("skipped", .bool true)], m)
    let (results, m, execCount) :=
      if "execute" ∉ env.skipPhases then
        match executeTasks plan st.taskResults with
        | .ok r => (r, { m with toolCalls := countToolCalls r }, st.execCount + 1)
        | .error e =>
          (st.taskResults.set (.str s!"__executor_error_iter_{iter}")
             (.dict [("error", .str e), ("failed", .bool true)]),
           m.recordError "execute" e, st.execCount + 1)
      else (st.taskResults, m, st.execCount)
    let plans := st.completedPlans ++ [plan]
    if "reflect" ∉ env.skipPhases then
      let (reflection, m) :=
        runPhaseWithTimeout "reflect" (env.timeoutFor "reflect")
          (env.reflectOutcome iter) m
      let (cont, reason) :=
        shouldContinue reflection iter env.maxIterations results (some snapshot)
      if cont then
        runLoop env fuel (iter + 1)
          { taskResults := results, completedPlans := plans,
            guidance := buildPlanningGuidance reflection,
            metrics := m, execCount := execCount }
      else
        { taskResults := results, completedPlans := plans,
          guidance := st.guidance,
          metrics := m.finalize (reason.getD .error), execCount := execCount }
    else
      runLoop env fuel (iter + 1)
        { taskResults := results, completedPlans := plans,
          guidance := st.guidance, metrics := m, execCount := execCount }

/-- Assemble the final answer from whatever the answer phase produced:
a plain string passes through; an async stream is concatenated chunk by
chunk, skipping non-string chunks; anything else (e.g. a structured
failure dict) contributes nothing. -/
def collectAnswer : PVal → String
  | .str s => s
  | .stream chunks =>
    chunks.foldl (fun acc c => match c with | .str s => acc ++ s | _ => acc) ""
  | _ => ""

/-- What a successful `Orchestrator.run` produced. -/
structure RunOut where
  answer : String
  history : MessageHistory
  store : SessionStore
  metrics : RunMetrics
  execCount : ℕ

/-- `Orchestrator.run`: resolve the session memory, run Understand,
iterate Plan → Execute → Reflect under `ReflectionAnalyzer`, run
Answer, append the turn to the real (non-windowed) history, save it
back to the session store, and return the collected answer.  The
summarized working history is only a view handed to the phases (whose
results are already abstracted as outcomes) and is not tracked.  An
exception from the turn append is the single abort path (`Except.error`,
re-raised after metrics are finalized with `StopReason.error`). -/
def orchestratorRun (env : RunEnv) (store0 : SessionStore) :
    Except String RunOut :=
  let m0 : RunMetrics := { runId := env.runId, query := env.query }
  let history := (getOrCreateHistory env store0).1
  let store1 := (getOrCreateHistory env store0).2
  let um :=
    if "understand" ∉ env.skipPhases then
      runPhaseWithTimeout "understand" (env.timeoutFor "understand")
        env.understandOutcome m0
    else (.dict [("query", .str env.query), ("skipped", .bool true)], m0)
  let st :=
    runLoop env env.maxIterations 1
      { taskResults := [], completedPlans := [], guidance := .pynone,
        metrics := um.2, execCount := 0 }
  let m2 :=
    if st.metrics.stopReason = none then st.metrics.finalize .maxIterations
    else st.metrics
  let am :=
    if "answer" ∉ env.skipPhases then
      (collectAnswer (runPhaseWithTimeout "answer" (env.timeoutFor "answer")
          env.answerOutcome m2).1,
       (runPhaseWithTimeout "answer" (env.timeoutFor "answer")
          env.answerOutcome m2).2)
    else ("Answer phase skipped", m2)
  match history.addAgentMessage env.query am.1 env.summarize env.now with
  | .error e => .error e
  | .ok h' =>
    .ok { answer := am.1, history := h',
          store := saveHistory env store1 h', metrics := am.2,
          execCount := st.execCount }

/-! ## Structured-output parsing (`model/llm.py`)

`json.loads` is modelled on the JSON fragment these strategies ever
feed it: objects, arrays, escape-free strings, integers, `true`,
`false`, `null`, with strict comma placement (in particular a trailing
comma is a parse error, as in Python).  The pydantic
`model_validate` step is abstracted away: a strategy yields the parsed
JSON value itself. -/

inductive Json where
  | obj (kvs : List (String × Json))
  | arr (xs : List Json)
  | jstr (s : String)
  | jnum (n : ℤ)
  | jbool (b : Bool)
  | jnull

def skipWs (cs : List Char) : List Char := cs.dropWhile isWsChar

def braceOpen : Char := '\x7b'

def braceClose : Char := '\x7d'

/-- Scan an escape-free JSON string body up to the closing quote. -/
def scanString : List Char → Option (String × List Char)
  | [] => none
  | c :: rest =>
    if c = '"' then some ("", rest)
    else if c = '\\' then none
    else do
      let (s, r) ← scanString rest
      return (String.mk (c :: s.toList), r)

/-- Scan a (possibly signed) integer literal. -/
def scanInt (cs : List Char) : Option (ℤ × List Char) :=
  let (neg, cs') := if cs.head? = some '-' then (true, cs.tail) else (false, cs)
  let (digits, rest) := cs'.span Char.isDigit
  if digits.isEmpty then none
  else
    let n : ℕ := digits.foldl (fun acc d => acc * 10 + (d.toNat - 48)) 0
    some (if neg then -(n : ℤ) else (n : ℤ), rest)

mutual

/-- Strict recursive-descent JSON value parser (fuel-indexed). -/
def parseValue : ℕ → List Char → Option (Json × List Char)
  | 0, _ => none
  | fuel + 1, cs =>
    match skipWs cs with
    | [] => none
    | c :: rest =>
      if c = braceOpen then
        match skipWs rest with
        | c' :: rest' =>
          if c' = braceClose then some (.obj [], rest')
          else do
            let (kvs, r) ← parseMembers fuel (c' :: rest')
            return (.obj kvs, r)
        | [] => none
      else if c = '[' then
        match skipWs rest with
        | ']' :: rest' => some (.arr [], rest')
        | more => do
          let (xs, r) ← parseElements fuel more
          return (.arr xs, r)
      else if c = '"' then do
        let (s, r) ← scanString rest
        return (.jstr s, r)
      else if ['t', 'r', 'u', 'e'].isPrefixOf (c :: rest) then
        some (.jbool true, rest.drop 3)
      else if ['f', 'a', 'l', 's', 'e'].isPrefixOf (c :: rest) then
        some (.jbool false, rest.drop 4)
      else if ['n', 'u', 'l', 'l'].isPrefixOf (c :: rest) then
        some (.jnull, rest.drop 3)
      else do
        let (n, r) ← scanInt (c :: rest)
        return (.jnum n, r)

/-- Parse `"key": value (, "key": value)*` up to and including the
closing brace — a comma must be followed by another member. -/
def parseMembers : ℕ → List Char → Option (List (String × Json) × List Char)
  | 0, _ => none
  | fuel + 1, cs => do
    match skipWs cs with
    | '"' :: rest =>
      let (key, r1) ← scanString rest
      match skipWs r1 with
      | ':' :: r2 => do
        let (v, r3) ← parseValue fuel r2
        match skipWs r3 with
        | ',' :: r4 => do
          let (kvs, r5) ← parseMembers fuel r4
          return ((key, v) :: kvs, r5)
        | c :: r4 =>
          if c = braceClose then return ((key, v) :: [], r4) else none
        | [] => none
      | _ => none
    | _ => none

/-- Parse `value (, value)* ]`. -/
def parseElements : ℕ → List Char → Option (List Json × List Char)
  | 0, _ => none
  | fuel + 1, cs => do
    let (v, r1) ← parseValue fuel cs
    match skipWs r1 with
    | ',' :: r2 => do
      let (xs, r3) ← parseElements fuel r2
      return (v :: xs, r3)
    | ']' :: r2 => return ([v], r2)
    | _ => none

end

/-- `json.loads`: a single JSON value followed only by whitespace. -/
def pyJsonLoads (s : String) : Option Json :=
  match parseValue (s.length + 2) s.toList with
  | some (j, rest) => if (skipWs rest).isEmpty then some j else none
  | none => none

/-- `_parse_direct`: `json.loads(content.strip())`. -/
def parseDirect (content : String) : Option Json :=
  pyJsonLoads (pyStrip content)

/-- `_parse_strip_markdown`: drop a leading and a trailing ``` fence
line, then parse. -/
def parseStripMarkdown (content : String) : Option Json :=
  let cleaned := pyStrip content
  let cleaned :=
    if strStartsWith cleaned "```" then
      let lines := splitLines cleaned
      let lines :=
        match lines with
        | l0 :: restL => if strStartsWith (pyStrip l0) "```" then restL else lines
        | [] => lines
      let lines :=
        if !lines.isEmpty && pyStrip (lines.getLast?.getD "") = "```" then
          lines.dropLast
        else lines
      joinLines lines
    else cleaned
  pyJsonLoads (pyStrip cleaned)

/-- A maximal run of non-brace characters (`[^{}]*`). -/
def spanFlat (cs : List Char) : List Char × List Char :=
  cs.span fun c => c != braceOpen && c != braceClose

/-- Consume `(?:\{[^\x7b\x7d]*\}[^\x7b\x7d]*)*\}` of the extraction
pattern.  After each flat run the next character decides uniquely
between closing the match and one more nested group, so this
deterministic scan matches exactly what the regex matches. -/
def matchGroups : ℕ → List Char → Option (List Char × List Char)
  | 0, _ => none
  | _ + 1, [] => none
  | fuel + 1, c :: rest =>
    if c = braceClose then some ([c], rest)
    else if c = braceOpen then
      let (flat1, r1) := spanFlat rest
      match r1 with
      | c2 :: r2 =>
        if c2 = braceClose then
          let (flat2, r3) := spanFlat r2
          match matchGroups fuel r3 with
          | some (tailC, r4) => some (c :: flat1 ++ [c2] ++ flat2 ++ tailC, r4)
          | none => none
        else none
      | [] => none
    else none

/-- Try the extraction pattern `\{[^\x7b\x7d]*(?:...)*\}` at the
current position. -/
def matchObjAt (cs : List Char) : Option (List Char × List Char) :=
  match cs with
  | c :: rest =>
    if c = braceOpen then
      let (flat, r1) := spanFlat rest
      match matchGroups (r1.length + 1) r1 with
      | some (tailC, r2) => some (c :: flat ++ tailC, r2)
      | none => none
    else none
  | [] => none

/-- `re.findall` of the extraction pattern: leftmost, non-overlapping
matches. -/
def findObjMatches : ℕ → List Char → List String
  | 0, _ => []
  | _ + 1, [] => []
  | fuel + 1, c :: rest =>
    match matchObjAt (c :: rest) with
    | some (m, r) => String.mk m :: findObjMatches fuel r
    | none => findObjMatches fuel rest

/-- `_parse_extract_json`: each candidate object substring is tried in
order; the first one `json.loads` accepts wins. -/
def parseExtractJson (content : String) : Option Json :=
  let ms := findObjMatches (content.length + 1) content.toList
  (ms.filterMap pyJsonLoads).head?

/-- `re.search(r"\{.*\}", content, re.DOTALL)`: the span from the first
opening brace to the last closing brace after it. -/
def extractBraceSpan (s : String) : Option String :=
  let fromOpen := s.toList.dropWhile fun c => c != braceOpen
  if fromOpen.isEmpty then none
  else
    let upToClose := (fromOpen.reverse.dropWhile fun c => c != braceClose).reverse
    if upToClose.isEmpty then none else some (String.mk upToClose)

def apostrophe : Char := Char.ofNat 39

/-- Repair `',\s*close' -> close` (trailing commas before a closer). -/
def removeTrailingCommas (close : Char) : ℕ → List Char → List Char
  | 0, cs => cs
  | _ + 1, [] => []
  | fuel + 1, c :: rest =>
    if c = ',' then
      let (_, r) := rest.span isWsChar
      match r with
      | c2 :: r2 =>
        if c2 = close then c2 :: removeTrailingCommas close fuel r2
        else c :: removeTrailingCommas close fuel rest
      | [] => c :: removeTrailingCommas close fuel rest
    else c :: removeTrailingCommas close fuel rest

/-- Repair `':\s*Word' -> ': word'` (Python literals to JSON ones). -/
def replaceColonWord (word replacement : String) : ℕ → List Char → List Char
  | 0, cs => cs
  | _ + 1, [] => []
  | fuel + 1, c :: rest =>
    if c = ':' then
      let (_, r) := rest.span isWsChar
      if word.toList.isPrefixOf r then
        ':' :: ' ' :: (replacement.toList ++ replaceColonWord word replacement fuel (r.drop word.length))
      else c :: replaceColonWord word replacement fuel rest
    else c :: replaceColonWord word replacement fuel rest

/-- The `_parse_repair_json` substitution pipeline, in source order. -/
def repairJsonStr (s : String) : String :=
  let cs1 := s.toList.map fun c => if c = apostrophe then '"' else c
  let cs2 := removeTrailingCommas braceClose (cs1.length + 1) cs1
  let cs3 := removeTrailingCommas ']' (cs2.length + 1) cs2
  let cs4 := replaceColonWord "None" "null" (cs3.length + 1) cs3
  let cs5 := replaceColonWord "True" "true" (cs4.length + 1) cs4
  let cs6 := replaceColonWord "False" "false" (cs5.length + 1) cs5
  String.mk cs6

/-- `_parse_repair_json`: extract the brace span, apply the repairs,
parse. -/
def parseRepairJson (content : String) : Option Json :=
  (extractBraceSpan content).bind fun j => pyJsonLoads (repairJsonStr j)

/-- `_parse_structured_output`: the layered strategy — parse as-is,
strip markdown fences, extract the first brace-delimited object, repair
common syntax issues; the first success wins, otherwise the last error
is raised. -/
def parseStructuredOutput (content : String) : Except String Json :=
  match parseDirect content with
  | some j => .ok j
  | none =>
    match parseStripMarkdown content with
    | some j => .ok j
    | none =>
      match parseExtractJson content with
      | some j => .ok j
      | none =>
        match parseRepairJson content with
        | some j => .ok j
        | none => .error "All parsing strategies failed"

/-! ## Remaining embedded pieces used by the statements -/

/-- `SimpleSummarizer.summarize`: truncate query and answer (newlines
in the answer become spaces), marking each truncation with `...`. -/
def simpleSummarize (queryLen answerLen : ℕ) (query answer : String) : String :=
  let queryPreview := pyStrip (String.mk (query.toList.take queryLen))
  let answerPreview :=
    pyStrip (String.mk ((answer.toList.take answerLen).map fun c =>
      if c = '\n' then ' ' else c))
  let qp := if queryLen < query.length then queryPreview ++ "..." else queryPreview
  let ap := if answerLen < answer.length then answerPreview ++ "..." else answerPreview
  qp ++ " → " ++ ap

/-- The default `SimpleSummarizer()` (query 60, answer 80 characters). -/
def defaultSummarize : String → String → String := simpleSummarize 60 80

/-- `addMany` together with the trace of every `Message` the calls
created, in creation order (pruned messages stay in the trace). -/
def MessageHistory.addManyTrace (summarize : String → String → String)
    (h : MessageHistory) (calls : List (String × String × Option String × ℕ)) :
    MessageHistory × List Message :=
  calls.foldl
    (fun (acc : MessageHistory × List Message) call =>
      match acc.1.addMessage call.1 call.2.1 call.2.2.1 summarize call.2.2.2 with
      | .ok (h', m) => (h', acc.2 ++ [m])
      | .error _ => acc)
    (h, [])

/-- Condition (1) of the analyzer: the reflection explicitly signals
completion. -/
def completionSignal (r : PVal) : Bool :=
  r.isDict && ((r.get? "is_complete").getD .pynone).truthy

/-- Condition (4) of the analyzer: the reflection reports a confidence
above `0.9`. -/
def highConfidenceSignal (r : PVal) : Bool :=
  r.isDict && confidenceExceeds (r.get? "confidence") (9/10)

/-- Condition (3) of the analyzer as the code implements it: a present,
non-empty snapshot, and no task-result key outside the snapshot's
keys. -/
def noNewKeys (tr : ResultMap) (snapshot : Option ResultMap) : Bool :=
  match snapshot with
  | some snap => !snap.isEmpty && tr.keys.all fun k => snap.keys.any (PVal.beq k)
  | none => false

/-- The decision procedure exactly as the claim words it: rule (3)
fires whenever `iteration > 1` and the task-results key set is
*identical* to the snapshot's key set, regardless of the snapshot
being empty.  Written solely for comparison with `shouldContinue`. -/
def shouldContinueClaimed (reflection : PVal) (iteration maxIterations : ℕ)
    (taskResults : ResultMap) (snapshot : Option ResultMap) :
    Bool × Option StopReason :=
  if completionSignal reflection then
    (false, some .reflectionComplete)
  else if maxIterations ≤ iteration then
    (false, some .maxIterations)
  else if 1 < iteration &&
      (match snapshot with
       | some snap =>
           (taskResults.keys.all fun k => snap.keys.any (PVal.beq k)) &&
           (snap.keys.all fun k => taskResults.keys.any (PVal.beq k))
       | none => false) then
    (false, some .noProgress)
  else if highConfidenceSignal reflection then
    (false, some .highConfidence)
  else
    (true, none)

/-- The plan that exhibits the divergence recorded for the task-level
failure claim: its first task names a tool that is not registered
anywhere. -/
def planC2 : PVal :=
  .dict [("summary", .str "price check"),
         ("tasks", .list
           [.dict [("id", .str "t1"), ("description", .str "fetch price"),
                   ("tool_calls", .list
                     [.dict [("tool", .str "missing_tool"), ("args", .dict [])]])],
            .dict [("id", .str "t2"), ("description", .str "summarize")]])]

/-- A mixed operation sequence (no delete of `"k"`) for exercising lock
stability. -/
def opsC10 : List StoreOp :=
  [.set "k" (MessageHistory.empty {}), .getLock "j", .get "k",
   .delete "j", .getLock "k", .set "k" (MessageHistory.empty {})]

/-- The source's `PHASE_TIMEOUTS` table. -/
def phaseTimeoutsDefault : List (String × ℕ) :=
  [("understand", 30), ("plan", 45), ("execute", 300), ("reflect", 30),
   ("answer", 60)]

/-- A reflection that neither signals completion nor reports
confidence. -/
def reflInconclusive : PVal := .dict [("reasoning", .str "need more data")]

/-- A small concrete plan for run scenarios. -/
def planSample : PVal :=
  .dict [("summary", .str "research plan"),
         ("tasks", .list [.dict [("id", .str "iter1_t1"),
                                 ("description", .str "look up rates")]])]

/-- The concrete run environment of the phase-timeout scenario: one
iteration, the plan phase hits its deadline, everything else
completes. -/
def envC8 : RunEnv :=
  { runId := "run-c8", query := "rate outlook", sessionId := some "sess-c8",
    skipPhases := [], maxIterations := 1,
    phaseTimeouts := phaseTimeoutsDefault, historyConfig := {},
    understandOutcome := .ok (.dict [("intent", .str "research")]) 1,
    planOutcome := fun _ => .timeout 45,
    reflectOutcome := fun _ => .ok reflInconclusive 1,
    answerOutcome := .ok (.stream [.str "Rates look ", .str "stable."]) 2,
    summarize := defaultSummarize, now := 3 }

/-- The run environment of the answer-timeout scenario: identical to
the plan-timeout one except that the plan phase completes and the
Answer phase is the one hitting its 60s deadline. -/
def envC8a : RunEnv :=
  { runId := "run-c8a", query := "rate outlook", sessionId := some "sess-c8a",
    skipPhases := [], maxIterations := 1,
    phaseTimeouts := phaseTimeoutsDefault, historyConfig := {},
    understandOutcome := .ok (.dict [("intent", .str "research")]) 1,
    planOutcome := fun _ => .ok planSample 2,
    reflectOutcome := fun _ => .ok reflInconclusive 1,
    answerOutcome := .timeout 60,
    summarize := defaultSummarize, now := 3 }

/-- The metrics state the answer-timeout run holds when it reaches the
Answer phase wrapper. -/
def metricsC8a : RunMetrics := { runId := "run-c8a", query := "rate outlook" }

/-- The concrete run environment for the single-iteration witness. -/
def envC4w : RunEnv :=
  { runId := "run-c4", query := "what moves EURUSD?",
    sessionId := some "sess-c4", skipPhases := [], maxIterations := 1,
    phaseTimeouts := phaseTimeoutsDefault, historyConfig := {},
    understandOutcome := .ok (.dict [("intent", .str "research")]) 1,
    planOutcome := fun _ => .ok planSample 2,
    reflectOutcome := fun _ => .ok reflInconclusive 1,
    answerOutcome := .ok (.stream [.str "EURUSD ", .str "moves."]) 3,
    summarize := defaultSummarize, now := 5 }

/-- The concrete run environment for the append-and-save witness. -/
def envC1w : RunEnv :=
  { runId := "run-c1", query := "tell me about EURUSD",
    sessionId := some "sess-c1", skipPhases := [], maxIterations := 2,
    phaseTimeouts := phaseTimeoutsDefault, historyConfig := {},
    understandOutcome := .ok (.dict [("intent", .str "research")]) 1,
    planOutcome := fun _ => .ok planSample 2,
    reflectOutcome := fun _ => .ok reflInconclusive 1,
    answerOutcome := .ok (.stream [.str "EURUSD is ", .str "most traded."]) 3,
    summarize := defaultSummarize, now := 9 }

/-- A small concrete relevance configuration (limit two, default
threshold and weight). -/
def cfgC7w : RelevanceConfig :=
  { maxMessages := 2, similarityThreshold := 3/10,
    recencyWeight := 3/10, useEmbeddings := true }

/-- A single stored turn. -/
def msgsC7w : List Message := [⟨0, "q0", "a0", "s0", 0⟩]

section ListHelpers

variable {α : Type _} (p q : α → Bool)

theorem find?_append_of_none {l₁ : List α} (l₂ : List α)
    (h : l₁.find? p = none) : (l₁ ++ l₂).find? p = l₂.find? p := by
  induction l₁ with
  | nil => rfl
  | cons a l ih =>
    cases hp : p a with
    | true => simp [List.find?_cons_of_pos _ hp] at h
    | false =>
      rw [List.find?_cons_of_neg _ (by simp [hp])] at h
      rw [List.cons_append, List.find?_cons_of_neg _ (by simp [hp])]
      exact ih h

theorem find?_append_of_some {l₁ : List α} (l₂ : List α) {x : α}
    (h : l₁.find? p = some x) : (l₁ ++ l₂).find? p = some x := by
  induction l₁ with
  | nil => simp at h
  | cons a l ih =>
    cases hp : p a with
    | true =>
      rw [List.find?_cons_of_pos _ hp] at h
      rw [List.cons_append, List.find?_cons_of_pos _ hp]
      exact h
    | false =>
      rw [List.find?_cons_of_neg _ (by simp [hp])] at h
      rw [List.cons_append, List.find?_cons_of_neg _ (by simp [hp])]
      exact ih h

theorem find?_filter_of_imp (l : List α)
    (h : ∀ x, p x = true → q x = true) :
    (l.filter q).find? p = l.find? p := by
  induction l with
  | nil => rfl
  | cons a l ih =>
    by_cases hq : q a = true
    · rw [List.filter_cons_of_pos hq, List.find?_cons, List.find?_cons]
      cases hp : p a <;> simp [hp, ih]
    · have hp : p a = false := by
        cases hpa : p a with
        | false => rfl
        | true => exact absurd (h a hpa) hq
      rw [List.filter_cons_of_neg hq, List.find?_cons]
      simp [hp, ih]

end ListHelpers

section SessionStoreLemmas

theorem SessionStore.locks_set (s : SessionStore) (k : String)
    (v : MessageHistory) : (s.set k v).locks = s.locks := by
  unfold SessionStore.set
  split <;> rfl

/-- After `get_lock`, the key's lock is recorded and is the returned
one. -/
theorem SessionStore.lockOf_getLock_self (s : SessionStore) (k : String) :
    ((s.getLock k).2).lockOf k = some (s.getLock k).1 := by
  cases hf : s.locks.find? fun kv => kv.1 == k with
  | some x =>
    have hg : s.getLock k = (x.2, s) := by
      unfold SessionStore.getLock
      rw [hf]
      rfl
    rw [hg]
    show ((s.locks.find? fun kv => kv.1 == k).map Prod.snd) = some x.2
    rw [hf]
    rfl
  | none =>
    have hg : s.getLock k =
        (s.nextLock,
         { s with locks := s.locks ++ [(k, s.nextLock)],
                  nextLock := s.nextLock + 1 }) := by
      unfold SessionStore.getLock
      rw [hf]
      rfl
    rw [hg]
    show (((s.locks ++ [(k, s.nextLock)]).find? fun kv => kv.1 == k).map Prod.snd)
      = some s.nextLock
    rw [find?_append_of_none _ _ hf]
    simp [List.find?]

/-- An existing lock is simply returned, with the store unchanged. -/
theorem SessionStore.getLock_of_some {s : SessionStore} {k : String} {l : ℕ}
    (h : s.lockOf k = some l) : s.getLock k = (l, s) := by
  unfold SessionStore.lockOf at h
  unfold SessionStore.getLock
  rw [h]

/-- Any operation other than deleting the key preserves its lock. -/
theorem SessionStore.lockOf_applyOp {s : SessionStore} {k : String} {l : ℕ}
    (op : StoreOp) (hop : op ≠ .delete k) (h : s.lockOf k = some l) :
    (s.applyOp op).lockOf k = some l := by
  cases op with
  | get _ => exact h
  | set k' v =>
    show ((s.set k' v).locks.find? fun kv => kv.1 == k).map Prod.snd = some l
    rw [SessionStore.locks_set]
    exact h
  | delete k' =>
    have hkk : k' ≠ k := fun he => hop (by rw [he])
    show ((s.locks.filter fun kv => kv.1 != k').find? fun kv => kv.1 == k).map
      Prod.snd = some l
    have hfe : (s.locks.filter fun kv => kv.1 != k').find? (fun kv => kv.1 == k) =
        s.locks.find? fun kv => kv.1 == k := by
      refine find?_filter_of_imp _ _ _ fun kv hkv => ?_
      have hk1 : kv.1 = k := by simpa using hkv
      show (kv.1 != k') = true
      rw [hk1, bne_iff_ne]
      exact Ne.symm hkk
    rw [hfe]
    exact h
  | getLock k' =>
    show ((s.getLock k').2).lockOf k = some l
    unfold SessionStore.getLock
    cases hf : s.locks.find? fun kv => kv.1 == k' with
    | some x => exact h
    | none =>
      show ((s.locks ++ [(k', s.nextLock)]).find? fun kv => kv.1 == k).map
        Prod.snd = some l
      obtain ⟨x, hx, hxl⟩ : ∃ x, s.locks.find? (fun kv => kv.1 == k) = some x ∧
          x.2 = l := by
        unfold SessionStore.lockOf at h
        cases hfk : s.locks.find? fun kv => kv.1 == k with
        | none => rw [hfk] at h; simp at h
        | some x => exact ⟨x, rfl, by rw [hfk] at h; simpa using h⟩
      rw [find?_append_of_some _ _ hx]
      simp [hxl]

/-- Lock preservation over a whole operation sequence. -/
theorem SessionStore.lockOf_applyOps {s : SessionStore} {k : String} {l : ℕ}
    (ops : List StoreOp) (hops : ∀ op ∈ ops, op ≠ .delete k)
    (h : s.lockOf k = some l) : (s.applyOps ops).lockOf k = some l := by
  induction ops generalizing s with
  | nil => exact h
  | cons op rest ih =>
    exact ih (fun o ho => hops o (List.mem_cons_of_mem _ ho))
      (SessionStore.lockOf_applyOp op (hops op (List.mem_cons_self _ _)) h)

end SessionStoreLemmas

/-- **C10 counterexample** — `delete` evicts the per-key lock: after
`get_lock("k")` (token 0), `delete("k")`, the next `get_lock("k")`
returns a *different* lock (token 1), refuting "regardless of
intervening store operations, including delete". -/
theorem counterexample_C10 :
    (((({} : SessionStore).getLock "k").2.delete "k").getLock "k").1 ≠
      (({} : SessionStore).getLock "k").1 := by decide

/-- **C10 (amended)** — The per-key lock is created lazily on first
request and kept until `delete` is called for that key: as long as no
operation deletes the key, every later `get_lock` call — across
arbitrary intervening `get`/`set`/`get_lock` operations and deletes of
*other* keys — returns the same lock object. -/
theorem claim_C10 (s : SessionStore) (k : String) (ops : List StoreOp)
    (hops : ∀ op ∈ ops, op ≠ StoreOp.delete k) :
    ((((s.getLock k).2).applyOps ops).getLock k).1 = (s.getLock k).1 := by
  have h1 := SessionStore.lockOf_getLock_self s k
  have h2 := SessionStore.lockOf_applyOps ops hops h1
  rw [SessionStore.getLock_of_some h2]

/-- Witness for C10 at a concrete store and operation list. -/
theorem claim_C10_witness :
    (∀ op ∈ opsC10, op ≠ StoreOp.delete "k") ∧
      ((((({} : SessionStore).getLock "k").2).applyOps opsC10).getLock "k").1 =
        ((({} : SessionStore).getLock "k").1) :=
  ⟨by decide, claim_C10 {} "k" opsC10 (by decide)⟩

section MemoryLemmas

/-- Everything `add_message` guarantees about a successful call: the
created message carries the pre-call counter value and the given turn,
the counter advances by one, the configuration is untouched, and the
stored list is the appended list, pruned to the most recent
`prune_to` exactly when the threshold was reached and the bound
exceeded. -/
theorem MessageHistory.addMessage_ok_spec {h : MessageHistory} {q a : String}
    {cs : Option String} {sz : String → String → String} {now : ℕ}
    {h' : MessageHistory} {msg : Message}
    (he : h.addMessage q a cs sz now = .ok (h', msg)) :
    msg.id = h.nextId ∧ msg.query = q ∧ msg.answer = a ∧
    h'.nextId = h.nextId + 1 ∧ h'.config = h.config ∧
    h'.messages =
      (if h.config.pruneThreshold ≤ h.messages.length + 1 then
         if h.messages.length + 1 ≤ h.config.pruneTo then h.messages ++ [msg]
         else (h.messages ++ [msg]).drop (h.messages.length + 1 - h.config.pruneTo)
       else h.messages ++ [msg]) := by
  unfold MessageHistory.addMessage at he
  by_cases hq : q = ""
  · simp [hq] at he
  · by_cases ha : a = ""
    · simp [hq, ha] at he
    · simp only [if_neg hq, if_neg ha, Except.ok.injEq, Prod.mk.injEq] at he
      obtain ⟨hh, hm⟩ := he
      subst hm
      subst hh
      refine ⟨rfl, rfl, rfl, ?_, ?_, ?_⟩
      · unfold MessageHistory.pruneMessages
        split <;> (try split) <;> rfl
      · unfold MessageHistory.pruneMessages
        split <;> (try split) <;> rfl
      · unfold MessageHistory.pruneMessages
        simp only [List.length_append, List.length_cons, List.length_nil]
        split <;> (try split) <;> simp_all

/-- Non-empty inputs make `add_message` succeed. -/
theorem MessageHistory.addMessage_ok_of_nonempty {h : MessageHistory}
    {q a : String} (cs : Option String) (sz : String → String → String)
    (now : ℕ) (hq : q ≠ "") (ha : a ≠ "") :
    ∃ h' msg, h.addMessage q a cs sz now = .ok (h', msg) := by
  unfold MessageHistory.addMessage
  rw [if_neg hq, if_neg ha]
  exact ⟨_, _, rfl⟩

/-- The reachable-state invariant for add-only histories: the stored
ids are strictly increasing and all below the counter. -/
def MessageHistory.Inv (h : MessageHistory) : Prop :=
  h.messages.Pairwise (fun m₁ m₂ => m₁.id < m₂.id) ∧
    ∀ m ∈ h.messages, m.id < h.nextId

theorem MessageHistory.inv_empty (cfg : HistoryConfig) :
    (MessageHistory.empty cfg).Inv :=
  ⟨List.Pairwise.nil, by intro m hm; cases hm⟩

theorem MessageHistory.inv_addMessage {h : MessageHistory} {q a : String}
    {cs : Option String} {sz : String → String → String} {now : ℕ}
    {h' : MessageHistory} {msg : Message}
    (he : h.addMessage q a cs sz now = .ok (h', msg)) (hi : h.Inv) :
    h'.Inv ∧ msg.id = h.nextId := by
  obtain ⟨hid, _, _, hnext, _, hmsgs⟩ := MessageHistory.addMessage_ok_spec he
  obtain ⟨hpw, hlt⟩ := hi
  have hpw' : (h.messages ++ [msg]).Pairwise fun m₁ m₂ => m₁.id < m₂.id := by
    rw [List.pairwise_append]
    exact ⟨hpw, List.pairwise_singleton _ _,
      fun m₁ hm₁ m₂ hm₂ => by
        rw [List.mem_singleton] at hm₂
        subst hm₂
        rw [hid]
        exact hlt m₁ hm₁⟩
  have hlt' : ∀ m ∈ h.messages ++ [msg], m.id < h'.nextId := by
    intro m hm
    rw [hnext]
    rcases List.mem_append.mp hm with hm | hm
    · exact Nat.lt_succ_of_lt (hlt m hm)
    · rw [List.mem_singleton] at hm
      subst hm
      rw [hid]
      exact Nat.lt_succ_self _
  constructor
  · constructor
    · rw [hmsgs]
      split
      · split
        · exact hpw'
        · exact hpw'.sublist (List.drop_sublist _ _)
      · exact hpw'
    · intro m hm
      rw [hmsgs] at hm
      have hmem : m ∈ h.messages ++ [msg] := by
        revert hm
        split
        · split
          · exact id
          · exact fun hm => (List.drop_sublist _ _).mem hm
        · exact id
      exact hlt' m hmem
  · exact hid

/-- Invariant preservation along a whole add-only call sequence,
together with the created-message trace being strictly increasing and
bounded by the final counter. -/
theorem MessageHistory.inv_addManyTrace (sz : String → String → String)
    (calls : List (String × String × Option String × ℕ))
    (h : MessageHistory) (tr : List Message)
    (hi : h.Inv) (htr : tr.Pairwise fun m₁ m₂ => m₁.id < m₂.id)
    (htrb : ∀ m ∈ tr, m.id < h.nextId) :
    (calls.foldl
      (fun (acc : MessageHistory × List Message) call =>
        match acc.1.addMessage call.1 call.2.1 call.2.2.1 sz call.2.2.2 with
        | .ok (h', m) => (h', acc.2 ++ [m])
        | .error _ => acc) (h, tr)).1.Inv ∧
    ((calls.foldl
      (fun (acc : MessageHistory × List Message) call =>
        match acc.1.addMessage call.1 call.2.1 call.2.2.1 sz call.2.2.2 with
        | .ok (h', m) => (h', acc.2 ++ [m])
        | .error _ => acc) (h, tr)).2.Pairwise fun m₁ m₂ => m₁.id < m₂.id) ∧
    ∀ m ∈ (calls.foldl
      (fun (acc : MessageHistory × List Message) call =>
        match acc.1.addMessage call.1 call.2.1 call.2.2.1 sz call.2.2.2 with
        | .ok (h', m) => (h', acc.2 ++ [m])
        | .error _ => acc) (h, tr)).2, m.id <
      (calls.foldl
      (fun (acc : MessageHistory × List Message) call =>
        match acc.1.addMessage call.1 call.2.1 call.2.2.1 sz call.2.2.2 with
        | .ok (h', m) => (h', acc.2 ++ [m])
        | .error _ => acc) (h, tr)).1.nextId := by
  induction calls generalizing h tr with
  | nil => exact ⟨hi, htr, htrb⟩
  | cons c rest ih =>
    simp only [List.foldl_cons]
    cases he : h.addMessage c.1 c.2.1 c.2.2.1 sz c.2.2.2 with
    | error e => exact ih h tr hi htr htrb
    | ok p =>
      obtain ⟨h', m⟩ := p
      obtain ⟨hi', hid⟩ := MessageHistory.inv_addMessage he hi
      have hnext : h'.nextId = h.nextId + 1 :=
        (MessageHistory.addMessage_ok_spec he).2.2.2.1
      refine ih h' (tr ++ [m]) hi' ?_ ?_
      · rw [List.pairwise_append]
        exact ⟨htr, List.pairwise_singleton _ _,
          fun m₁ hm₁ m₂ hm₂ => by
            rw [List.mem_singleton] at hm₂
            subst hm₂
            rw [hid]
            exact htrb m₁ hm₁⟩
      · intro m' hm'
        rw [hnext]
        rcases List.mem_append.mp hm' with hm' | hm'
        · exact Nat.lt_succ_of_lt (htrb m' hm')
        · rw [List.mem_singleton] at hm'
          subst hm'
          rw [hid]
          exact Nat.lt_succ_self _

end MemoryLemmas

section PruneLemmas

end PruneLemmas

/-- **C6 counterexample** — `clear()` resets `_next_id` to 0: the first
message of a fresh history gets id 0; after `clear()` the next
`add_message` again creates id 0, which is not strictly greater than
the earlier message's id. -/
theorem counterexample_C6 :
    ((MessageHistory.empty {}).addMessage "q1" "a1" none defaultSummarize 0).map
        (fun p =>
          ((p.1.clear.addMessage "q2" "a2" none defaultSummarize 1).map
            fun p2 => (p.2.id, p2.2.id))) =
      .ok (.ok (0, 0)) := rfl

/-- **C6 (amended)** — Within one `MessageHistory` instance, message
ids are strictly increasing across any sequence of `add_message` calls,
including across pruning: the trace of created messages has strictly
increasing ids (every later message's id exceeds every earlier one's,
also the pruned ones), and so does the stored list.  `clear()`,
however, resets the id counter to 0, so the guarantee does not extend
across `clear()` calls. -/
theorem claim_C6 (cfg : HistoryConfig) (sz : String → String → String)
    (calls : List (String × String × Option String × ℕ)) :
    ((MessageHistory.addManyTrace sz (MessageHistory.empty cfg) calls).2.Pairwise
      fun m₁ m₂ => m₁.id < m₂.id) ∧
    ((MessageHistory.addManyTrace sz (MessageHistory.empty cfg) calls).1.messages.Pairwise
      fun m₁ m₂ => m₁.id < m₂.id) ∧
    (∀ h : MessageHistory, h.clear.nextId = 0 ∧ h.clear.messages = []) := by
  have hmain := MessageHistory.inv_addManyTrace sz calls (MessageHistory.empty cfg)
    [] (MessageHistory.inv_empty cfg) List.Pairwise.nil (by intro m hm; cases hm)
  exact ⟨hmain.2.1, hmain.1.1, fun h => ⟨rfl, rfl⟩⟩

section SelectorLemmas

open RelevanceSelector

/-- Structure of the hybrid-score branch: the returned messages are
indexed by a strictly increasing (chronological) list of surviving
indices, of size `min max_messages (number of survivors)`, and every
selected index scores at least as high as every unselected survivor. -/
theorem selectByHybridScore_spec (cfg : RelevanceConfig) (msgs : List Message)
    (sims : List ℚ) (hne : validIndices cfg sims msgs.length ≠ []) :
    ∃ idxs : List ℕ,
      selectByHybridScore cfg msgs sims = idxs.map (fun i => msgs.getD i default) ∧
      idxs.Pairwise (· < ·) ∧
      (∀ i ∈ idxs, i ∈ validIndices cfg sims msgs.length) ∧
      idxs.length = min cfg.maxMessages (validIndices cfg sims msgs.length).length ∧
      (∀ i ∈ idxs, ∀ j ∈ validIndices cfg sims msgs.length, j ∉ idxs →
        hybridScore cfg sims msgs.length j ≤ hybridScore cfg sims msgs.length i) := by
  haveI hrt : IsTotal ℕ (fun a b =>
      hybridScore cfg sims msgs.length b ≤ hybridScore cfg sims msgs.length a) :=
    ⟨fun a b => le_total _ _⟩
  haveI hrtr : IsTrans ℕ (fun a b =>
      hybridScore cfg sims msgs.length b ≤ hybridScore cfg sims msgs.length a) :=
    ⟨fun _ _ _ hab hbc => le_trans hbc hab⟩
  have hie : (validIndices cfg sims msgs.length).isEmpty = false := by
    rcases hv : validIndices cfg sims msgs.length with _ | ⟨a, t⟩
    · exact absurd hv hne
    · rfl
  refine ⟨(((validIndices cfg sims msgs.length).insertionSort fun a b =>
      hybridScore cfg sims msgs.length b ≤ hybridScore cfg sims msgs.length a).take
        cfg.maxMessages).insertionSort (· ≤ ·), ?_, ?_, ?_, ?_, ?_⟩
  · unfold selectByHybridScore
    simp only [hie, Bool.false_eq_true, if_false]
  · have hnd_valid : (validIndices cfg sims msgs.length).Nodup :=
      (List.nodup_range _).filter _
    have hnd_sorted :
        ((validIndices cfg sims msgs.length).insertionSort fun a b =>
          hybridScore cfg sims msgs.length b ≤ hybridScore cfg sims msgs.length a).Nodup :=
      (List.perm_insertionSort _ _).symm.nodup hnd_valid
    have hnd_top : (((validIndices cfg sims msgs.length).insertionSort fun a b =>
        hybridScore cfg sims msgs.length b ≤ hybridScore cfg sims msgs.length a).take
          cfg.maxMessages).Nodup :=
      List.Nodup.sublist (List.take_sublist _ _) hnd_sorted
    have hnd_chron := (List.perm_insertionSort (· ≤ ·) _).symm.nodup hnd_top
    exact (List.sorted_insertionSort (· ≤ ·) _).lt_of_le hnd_chron
  · intro i hi
    have hi_top := (List.perm_insertionSort (· ≤ ·) _).mem_iff.mp hi
    have hi_sorted := (List.take_sublist _ _).subset hi_top
    exact (List.perm_insertionSort _ _).mem_iff.mp hi_sorted
  · rw [(List.perm_insertionSort (· ≤ ·) _).length_eq, List.length_take,
      (List.perm_insertionSort _ _).length_eq]
  · intro i hi j hj hjn
    have hi_top := (List.perm_insertionSort (· ≤ ·) _).mem_iff.mp hi
    have hj_ntop : j ∉ ((validIndices cfg sims msgs.length).insertionSort fun a b =>
        hybridScore cfg sims msgs.length b ≤ hybridScore cfg sims msgs.length a).take
          cfg.maxMessages :=
      fun hj_top => hjn ((List.perm_insertionSort (· ≤ ·) _).mem_iff.mpr hj_top)
    have hj_sorted : j ∈ (validIndices cfg sims msgs.length).insertionSort fun a b =>
        hybridScore cfg sims msgs.length b ≤ hybridScore cfg sims msgs.length a :=
      (List.perm_insertionSort _ _).mem_iff.mpr hj
    have hj_drop : j ∈ ((validIndices cfg sims msgs.length).insertionSort fun a b =>
        hybridScore cfg sims msgs.length b ≤ hybridScore cfg sims msgs.length a).drop
          cfg.maxMessages := by
      have hsplit := List.take_append_drop cfg.maxMessages
        ((validIndices cfg sims msgs.length).insertionSort fun a b =>
          hybridScore cfg sims msgs.length b ≤ hybridScore cfg sims msgs.length a)
      have hj2 : j ∈ (((validIndices cfg sims msgs.length).insertionSort fun a b =>
          hybridScore cfg sims msgs.length b ≤
            hybridScore cfg sims msgs.length a).take cfg.maxMessages) ++
          (((validIndices cfg sims msgs.length).insertionSort fun a b =>
          hybridScore cfg sims msgs.length b ≤
            hybridScore cfg sims msgs.length a).drop cfg.maxMessages) := by
        rw [hsplit]
        exact hj_sorted
      rcases List.mem_append.mp hj2 with hmem | hmem
      · exact absurd hmem hj_ntop
      · exact hmem
    have hpw := List.sorted_insertionSort (fun a b =>
      hybridScore cfg sims msgs.length b ≤ hybridScore cfg sims msgs.length a)
      (validIndices cfg sims msgs.length)
    rw [List.Sorted, ← List.take_append_drop cfg.maxMessages
      ((validIndices cfg sims msgs.length).insertionSort fun a b =>
        hybridScore cfg sims msgs.length b ≤ hybridScore cfg sims msgs.length a),
      List.pairwise_append] at hpw
    exact hpw.2.2 i hi_top j hj_drop

end SelectorLemmas

/-- **C7** — Relevance selection with embeddings enabled and a positive
`max_messages`: (0) an index survives the threshold filter exactly when
its similarity reaches `similarity_threshold`; (A) with at most
`max_messages` stored turns, all turns are returned in stored
(chronological) order, for any query; (B) an embedding failure degrades
to the most recent `max_messages` turns; (C1) if no turn survives the
filter, the most recent `max_messages` turns are returned; (C2)
otherwise the result is `min max_messages (survivors)` surviving turns
in chronological order, each hybrid score
`(1 - w)·similarity + w·recency` of a selected turn at least that of
every unselected survivor. -/
theorem claim_C7 (cfg : RelevanceConfig) (msgs : List Message)
    (hmax : 0 < cfg.maxMessages) (hemb : cfg.useEmbeddings = true) :
    (∀ (sims : List ℚ) (i : ℕ),
      i ∈ RelevanceSelector.validIndices cfg sims msgs.length ↔
        i < msgs.length ∧ cfg.similarityThreshold ≤ sims.getD i 0) ∧
    (∀ simsOutcome, msgs.length ≤ cfg.maxMessages →
      RelevanceSelector.select cfg msgs simsOutcome = msgs) ∧
    (cfg.maxMessages < msgs.length →
      RelevanceSelector.select cfg msgs none =
        msgs.drop (msgs.length - cfg.maxMessages)) ∧
    (∀ sims : List ℚ, cfg.maxMessages < msgs.length →
      (RelevanceSelector.validIndices cfg sims msgs.length = [] →
        RelevanceSelector.select cfg msgs (some sims) =
          msgs.drop (msgs.length - cfg.maxMessages)) ∧
      (RelevanceSelector.validIndices cfg sims msgs.length ≠ [] →
        ∃ idxs : List ℕ,
          RelevanceSelector.select cfg msgs (some sims) =
            idxs.map (fun i => msgs.getD i default) ∧
          idxs.Pairwise (· < ·) ∧
          (∀ i ∈ idxs, i ∈ RelevanceSelector.validIndices cfg sims msgs.length) ∧
          idxs.length =
            min cfg.maxMessages
              (RelevanceSelector.validIndices cfg sims msgs.length).length ∧
          (∀ i ∈ idxs, ∀ j ∈ RelevanceSelector.validIndices cfg sims msgs.length,
            j ∉ idxs →
            RelevanceSelector.hybridScore cfg sims msgs.length j ≤
              RelevanceSelector.hybridScore cfg sims msgs.length i))) := by
  have hmax0 : cfg.maxMessages ≠ 0 := Nat.pos_iff_ne_zero.mp hmax
  refine ⟨?_, ?_, ?_, ?_⟩
  · intro sims i
    unfold RelevanceSelector.validIndices
    rw [List.mem_filter, List.mem_range]
    simp [decide_eq_true_eq]
  · intro simsOutcome hle
    unfold RelevanceSelector.select
    rcases msgs with _ | ⟨a, t⟩
    · rfl
    · rw [if_neg (by simp), if_pos hle]
  · intro hlt
    have hnonnil : msgs.isEmpty = false := by
      rcases msgs with _ | ⟨a, t⟩
      · simp at hlt
      · rfl
    unfold RelevanceSelector.select
    rw [hnonnil, if_neg (by simp), if_neg (Nat.not_le_of_lt hlt), hemb]
    show lastSlice cfg.maxMessages msgs = _
    unfold lastSlice
    rw [if_neg hmax0]
  · intro sims hlt
    have hnonnil : msgs.isEmpty = false := by
      rcases msgs with _ | ⟨a, t⟩
      · simp at hlt
      · rfl
    have hsel : RelevanceSelector.select cfg msgs (some sims) =
        RelevanceSelector.selectByHybridScore cfg msgs sims := by
      unfold RelevanceSelector.select
      rw [hnonnil, if_neg (by simp), if_neg (Nat.not_le_of_lt hlt), hemb]
      rfl
    constructor
    · intro hval
      rw [hsel]
      simp only [RelevanceSelector.selectByHybridScore, hval, List.isEmpty_nil,
        if_true]
      unfold lastSlice
      rw [if_neg hmax0]
    · intro hne
      rw [hsel]
      exact selectByHybridScore_spec cfg msgs sims hne

/-- Witness for C7: three stored turns, limit two, mixed scores. -/
theorem claim_C7_witness :
    (0 < cfgC7w.maxMessages) ∧ (cfgC7w.useEmbeddings = true) ∧
      (∀ simsOutcome, msgsC7w.length ≤ cfgC7w.maxMessages →
        RelevanceSelector.select cfgC7w msgsC7w simsOutcome = msgsC7w) :=
  ⟨by decide, by decide, (claim_C7 cfgC7w msgsC7w (by decide) (by decide)).2.1⟩

section MetricsLemmas

theorem find?_mapBump {α : Type _} [Add α] (d : List (String × α))
    (k q : String) (v : α) :
    ((d.map fun kv => if kv.1 == k then (kv.1, kv.2 + v) else kv).find? fun kv =>
        kv.1 == q) =
      if q = k then (d.find? fun kv => kv.1 == q).map fun kv => (kv.1, kv.2 + v)
      else d.find? fun kv => kv.1 == q := by
  have hpf : ((fun kv => kv.1 == q) ∘
      fun kv : String × α => if kv.1 == k then (kv.1, kv.2 + v) else kv) =
      fun kv : String × α => kv.1 == q := by
    funext kv
    by_cases h : kv.1 = k <;> simp [h]
  rw [List.find?_map, hpf]
  cases hf : d.find? fun kv => kv.1 == q with
  | none => split <;> rfl
  | some x =>
    have hxq : x.1 = q := by simpa using List.find?_some hf
    by_cases hqk : q = k
    · rw [if_pos hqk]
      simp [hxq, hqk]
    · rw [if_neg hqk]
      simp [hxq, hqk]

theorem lookup0_bump {α : Type _} [AddMonoid α] (d : List (String × α))
    (k q : String) (v : α) :
    (((RunMetrics.bump d k v).find? fun kv => kv.1 == q).map Prod.snd).getD 0 =
      if q = k then
        (((d.find? fun kv => kv.1 == q).map Prod.snd).getD 0) + v
      else ((d.find? fun kv => kv.1 == q).map Prod.snd).getD 0 := by
  unfold RunMetrics.bump
  by_cases hany : (d.any fun kv => kv.1 == k) = true
  · rw [if_pos hany, find?_mapBump]
    by_cases hqk : q = k
    · rw [if_pos hqk, if_pos hqk]
      cases hf : d.find? fun kv => kv.1 == q with
      | none =>
        exfalso
        subst hqk
        obtain ⟨x, hx, hxq⟩ := List.any_eq_true.mp hany
        exact (List.find?_eq_none.mp hf x hx) hxq
      | some x => simp
    · rw [if_neg hqk, if_neg hqk]
  · rw [if_neg hany]
    by_cases hqk : q = k
    · subst hqk
      have hnone : (d.find? fun kv => kv.1 == q) = none := by
        rw [List.find?_eq_none]
        intro x hx hxq
        exact hany (List.any_eq_true.mpr ⟨x, hx, hxq⟩)
      rw [find?_append_of_none _ _ hnone, hnone]
      simp [List.find?, zero_add]
    · rw [if_neg hqk]
      cases hf : d.find? fun kv => kv.1 == q with
      | some x => rw [find?_append_of_some _ _ hf]
      | none =>
        rw [find?_append_of_none _ _ hf,
          List.find?_cons_of_neg _ (by simpa using Ne.symm hqk)]
        rfl

theorem RunMetrics.attempts_recordPhase (m : RunMetrics) (p : String) (d : ℚ)
    (q : String) :
    (m.recordPhase p d).attempts q =
      if q = p then m.attempts q + 1 else m.attempts q :=
  lookup0_bump m.phaseAttempts p q 1

theorem RunMetrics.timing_recordPhase (m : RunMetrics) (p : String) (d : ℚ)
    (q : String) :
    (m.recordPhase p d).timing q =
      if q = p then m.timing q + d else m.timing q :=
  lookup0_bump m.phaseTimings p q d

/-- The timeout wrapper records the attempt whatever happens. -/
theorem runPhase_attempts (name : String) (t : ℕ) (o : PhaseOutcome)
    (m : RunMetrics) (q : String) :
    (runPhaseWithTimeout name t o m).2.attempts q =
      if q = name then m.attempts q + 1 else m.attempts q := by
  cases o with
  | ok v d => exact RunMetrics.attempts_recordPhase m name d q
  | timeout d => exact RunMetrics.attempts_recordPhase m name d q
  | exn e d => exact RunMetrics.attempts_recordPhase m name d q

theorem runPhase_stopReason (name : String) (t : ℕ) (o : PhaseOutcome)
    (m : RunMetrics) :
    (runPhaseWithTimeout name t o m).2.stopReason = m.stopReason := by
  cases o <;> rfl

end MetricsLemmas

/-- **C8 counterexample** — The claim's universally quantified "the
run proceeds and returns an answer" fails at the Answer phase itself:
when the Answer phase hits its 60s deadline, the wrapper does
substitute the structured failure dict, but no answer string is
collected from it, so the turn-append validation raises and the run
aborts with an error instead of returning an answer. -/
theorem counterexample_C8 :
    (runPhaseWithTimeout "answer" (envC8a.timeoutFor "answer")
        envC8a.answerOutcome metricsC8a).1 =
      .dict [("error", .str "answer phase timeout after 60s"),
             ("failed", .bool true), ("timeout", .bool true)] ∧
    orchestratorRun envC8a {} = .error "answer must be a non-empty string" :=
  ⟨rfl, rfl⟩

/-- **C8 (amended)** — A timed-out phase is absorbed by the wrapper,
not raised: for every phase name, deadline, duration and metrics
state, `_run_phase_with_timeout` returns the structured failure
`{error, failed: true, timeout: true}` and records the attempt, its
duration and the error in `RunMetrics` (first conjunct).  A timeout of
a phase *before* Answer does not abort the run: in the concrete
scenario of the plan phase timing out at its 45s deadline with one
iteration, the run still reaches the Answer phase and returns the
streamed answer, with the timeout recorded (middle conjuncts) — note
the execute section runs without the wrapper (no "execute" attempt is
recorded although it ran once).  An Answer-phase timeout, however,
leaves the final answer empty, so the turn-append validation raises
and that run aborts (last conjunct). -/
theorem claim_C8 :
    (∀ (name : String) (t : ℕ) (d : ℚ) (m : RunMetrics),
      (runPhaseWithTimeout name t (.timeout d) m).1 =
        .dict [("error", .str s!"{name} phase timeout after {t}s"),
               ("failed", .bool true), ("timeout", .bool true)] ∧
      (runPhaseWithTimeout name t (.timeout d) m).2.attempts name =
        m.attempts name + 1 ∧
      (runPhaseWithTimeout name t (.timeout d) m).2.timing name =
        m.timing name + d ∧
      (runPhaseWithTimeout name t (.timeout d) m).2.errors =
        m.errors ++ [(name, s!"{name} phase timeout after {t}s")] ∧
      (runPhaseWithTimeout name t (.timeout d) m).2.stopReason = m.stopReason) ∧
    (orchestratorRun envC8 {}).map RunOut.answer = .ok "Rates look stable." ∧
    (orchestratorRun envC8 {}).map (fun o => o.metrics.attempts "answer") = .ok 1 ∧
    (orchestratorRun envC8 {}).map (fun o => o.metrics.attempts "plan") = .ok 1 ∧
    (orchestratorRun envC8 {}).map (fun o => o.metrics.errors) =
      .ok [("plan", "plan phase timeout after 45s")] ∧
    (orchestratorRun envC8 {}).map (fun o => o.metrics.timing "plan") = .ok 45 ∧
    (orchestratorRun envC8 {}).map (fun o => o.metrics.stopReason) =
      .ok (some .maxIterations) ∧
    (orchestratorRun envC8 {}).map (fun o => o.metrics.attempts "execute") =
      .ok 0 ∧
    (orchestratorRun envC8 {}).map RunOut.execCount = .ok 1 ∧
    orchestratorRun envC8a {} = .error "answer must be a non-empty string" := by
  refine ⟨?_, rfl, rfl, rfl, rfl, rfl, rfl, rfl, rfl, rfl⟩
  intro name t d m
  refine ⟨rfl, ?_, ?_, rfl, rfl⟩
  · rw [runPhase_attempts, if_pos rfl]
  · show ((m.recordPhase name d).recordError name _).timing name = _
    rw [show ((m.recordPhase name d).recordError name
      (s!"{name} phase timeout after {t}s")).timing name =
        (m.recordPhase name d).timing name from rfl]
    rw [RunMetrics.timing_recordPhase, if_pos rfl]

section RunLemmas

theorem RunMetrics.attempts_finalize (m : RunMetrics) (r : StopReason)
    (q : String) : (m.finalize r).attempts q = m.attempts q := rfl

theorem RunMetrics.attempts_recordError (m : RunMetrics) (p e q : String) :
    (m.recordError p e).attempts q = m.attempts q := rfl

/-- One unfolding of the iteration loop when the deadline is one
iteration and the reflection comes back without a completion signal:
the plan phase and the execute section each run exactly once, the
reflect phase is recorded, and the loop finalizes with
`MaxIterations`. -/
theorem runLoop_one (env : RunEnv) (st : LoopState) (r : PVal) (rd : ℚ)
    (hskip : env.skipPhases = [])
    (hmax : env.maxIterations = 1)
    (hrefl : env.reflectOutcome 1 = .ok r rd)
    (hc1 : completionSignal r = false) :
    ∃ mPlan : RunMetrics,
      (runLoop env 1 1 st).metrics =
        (mPlan.recordPhase "reflect" rd).finalize .maxIterations ∧
      (∀ q, mPlan.attempts q =
        if q = "plan" then st.metrics.attempts q + 1 else st.metrics.attempts q) ∧
      (runLoop env 1 1 st).execCount = st.execCount + 1 := by
  show ∃ mPlan, (runLoop env (0 + 1) 1 st).metrics = _ ∧ _ ∧
    (runLoop env (0 + 1) 1 st).execCount = _
  rw [runLoop]
  rw [hskip]
  simp only [List.not_mem_nil, not_false_iff, if_true]
  rcases hplan : runPhaseWithTimeout "plan" (env.timeoutFor "plan")
    (env.planOutcome 1) { st.metrics with iterations := 1 } with ⟨plan, m2⟩
  have hm2att : ∀ q, m2.attempts q =
      if q = "plan" then st.metrics.attempts q + 1 else st.metrics.attempts q := by
    intro q
    have := runPhase_attempts "plan" (env.timeoutFor "plan") (env.planOutcome 1)
      { st.metrics with iterations := 1 } q
    rw [hplan] at this
    exact this
  rw [hrefl]
  have hsc : ∀ results : ResultMap,
      shouldContinue r 1 1 results (some st.taskResults) =
        (false, some .maxIterations) := by
    intro results
    have h0 : shouldContinue r 1 1 results (some st.taskResults) =
        if completionSignal r then (false, some .reflectionComplete)
        else if (1 : ℕ) ≤ 1 then (false, some .maxIterations)
        else if 1 < (1 : ℕ) && noNewKeys results (some st.taskResults) then
          (false, some .noProgress)
        else if highConfidenceSignal r then (false, some .highConfidence)
        else (true, none) := rfl
    rw [h0, hc1]
    simp
  cases hexec : executeTasks plan st.taskResults with
  | ok res =>
    refine ⟨{ m2 with toolCalls := countToolCalls res }, ?_, hm2att, ?_⟩ <;>
      simp [hmax, hsc, runPhaseWithTimeout]
  | error e =>
    refine ⟨m2.recordError "execute" e, ?_, fun q => hm2att q, ?_⟩ <;>
      simp [hmax, hsc, runPhaseWithTimeout]

end RunLemmas

/-- **C4** — With `max_iterations = 1` and an inconclusive reflection
(no completion signal; also no high confidence, though the
max-iterations rule fires first), a run with no skipped phases executes
Plan, Execute and Reflect exactly once each, stops the loop with
`MaxIterations`, and still executes the Answer phase before returning
the collected answer.  (`add_agent_message`, through which the run
returns, is modelled from the spec; the non-empty answer and query
hypotheses are its validation precondition.) -/
theorem claim_C4 (env : RunEnv) (store0 : SessionStore) (r av : PVal)
    (rd ad : ℚ)
    (hmax : env.maxIterations = 1)
    (hskip : env.skipPhases = [])
    (hrefl : env.reflectOutcome 1 = .ok r rd)
    (hc1 : completionSignal r = false)
    (_hc4 : highConfidenceSignal r = false)
    (hans : env.answerOutcome = .ok av ad)
    (hq : env.query ≠ "")
    (hansne : collectAnswer av ≠ "") :
    ∃ out : RunOut,
      orchestratorRun env store0 = .ok out ∧
      out.metrics.attempts "plan" = 1 ∧
      out.execCount = 1 ∧
      out.metrics.attempts "reflect" = 1 ∧
      out.metrics.attempts "answer" = 1 ∧
      out.metrics.stopReason = some .maxIterations ∧
      out.answer = collectAnswer av := by
  obtain ⟨h2, msg, he⟩ := MessageHistory.addMessage_ok_of_nonempty
    (h := (getOrCreateHistory env store0).1) none env.summarize env.now hq hansne
  obtain ⟨mPlan, hloopm, hplanatt, hloopexec⟩ :=
    runLoop_one env
      { taskResults := [], completedPlans := [], guidance := .pynone,
        metrics := (runPhaseWithTimeout "understand" (env.timeoutFor "understand")
          env.understandOutcome
          { runId := env.runId, query := env.query }).2,
        execCount := 0 } r rd hskip hmax hrefl hc1
  simp only [orchestratorRun]
  rw [hskip]
  simp only [List.not_mem_nil, not_false_iff, if_true, hmax]
  rw [hloopm, hloopexec]
  rw [if_neg (show ¬ ((mPlan.recordPhase "reflect" rd).finalize
      .maxIterations).stopReason = none by simp [RunMetrics.finalize])]
  rw [hans]
  rw [show ∀ M : RunMetrics,
    runPhaseWithTimeout "answer" (env.timeoutFor "answer")
      (PhaseOutcome.ok av ad) M = (av, M.recordPhase "answer" ad) from
    fun M => rfl]
  have hag : (getOrCreateHistory env store0).1.addAgentMessage env.query
      (collectAnswer av) env.summarize env.now = .ok h2 := by
    unfold MessageHistory.addAgentMessage
    rw [he]
    rfl
  rw [hag]
  refine ⟨_, rfl, ?_, ?_, ?_, ?_, rfl, rfl⟩
  · show ((((mPlan.recordPhase "reflect" rd).finalize
        .maxIterations).recordPhase "answer" ad)).attempts "plan" = 1
    rw [RunMetrics.attempts_recordPhase, if_neg (by decide),
      RunMetrics.attempts_finalize,
      RunMetrics.attempts_recordPhase, if_neg (by decide),
      hplanatt, if_pos rfl]
    show (runPhaseWithTimeout "understand" (env.timeoutFor "understand")
      env.understandOutcome
      { runId := env.runId, query := env.query }).2.attempts "plan" + 1 = 1
    rw [runPhase_attempts, if_neg (by decide)]
    rfl
  · rfl
  · show ((((mPlan.recordPhase "reflect" rd).finalize
        .maxIterations).recordPhase "answer" ad)).attempts "reflect" = 1
    rw [RunMetrics.attempts_recordPhase, if_neg (by decide),
      RunMetrics.attempts_finalize,
      RunMetrics.attempts_recordPhase, if_pos rfl,
      hplanatt, if_neg (by decide)]
    show (runPhaseWithTimeout "understand" (env.timeoutFor "understand")
      env.understandOutcome
      { runId := env.runId, query := env.query }).2.attempts "reflect" + 1 = 1
    rw [runPhase_attempts, if_neg (by decide)]
    rfl
  · show ((((mPlan.recordPhase "reflect" rd).finalize
        .maxIterations).recordPhase "answer" ad)).attempts "answer" = 1
    rw [RunMetrics.attempts_recordPhase, if_pos rfl,
      RunMetrics.attempts_finalize,
      RunMetrics.attempts_recordPhase, if_neg (by decide),
      hplanatt, if_neg (by decide)]
    show (runPhaseWithTimeout "understand" (env.timeoutFor "understand")
      env.understandOutcome
      { runId := env.runId, query := env.query }).2.attempts "answer" + 1 = 1
    rw [runPhase_attempts, if_neg (by decide)]
    rfl

section SaveLemmas

/-- `set` stores the value under the key. -/
theorem SessionStore.get_set_self (s : SessionStore) (k : String)
    (v : MessageHistory) : (s.set k v).get k = some v := by
  unfold SessionStore.set SessionStore.get
  by_cases hany : (s.store.any fun kv => kv.1 == k) = true
  · rw [if_pos hany]
    have hpf : ((fun kv => kv.1 == k) ∘
        fun kv : String × MessageHistory => if kv.1 == k then (kv.1, v) else kv) =
        fun kv : String × MessageHistory => kv.1 == k := by
      funext kv
      by_cases h : kv.1 = k <;> simp [h]
    show ((s.store.map fun kv => if kv.1 == k then (kv.1, v) else kv).find?
      fun kv => kv.1 == k).map Prod.snd = some v
    rw [List.find?_map, hpf]
    obtain ⟨x, hxmem, hxk⟩ := List.any_eq_true.mp hany
    obtain ⟨y, hy⟩ : ∃ y, s.store.find? (fun kv => kv.1 == k) = some y := by
      cases hf : s.store.find? fun kv => kv.1 == k with
      | none => exact absurd hxk (List.find?_eq_none.mp hf x hxmem)
      | some y => exact ⟨y, rfl⟩
    rw [hy]
    have hyk : y.1 = k := by simpa using List.find?_some hy
    simp [hyk]
  · rw [if_neg hany]
    have hnone : s.store.find? (fun kv => kv.1 == k) = none := by
      rw [List.find?_eq_none]
      intro x hx hxk
      exact hany (List.any_eq_true.mpr ⟨x, hx, hxk⟩)
    show ((s.store ++ [(k, v)]).find? fun kv => kv.1 == k).map Prod.snd = some v
    rw [find?_append_of_none _ _ hnone]
    simp [List.find?]

/-- `set` never touches the locks. -/
theorem SessionStore.lockOf_set (s : SessionStore) (k' : String)
    (v : MessageHistory) (k : String) :
    (s.set k' v).lockOf k = s.lockOf k := by
  show ((s.set k' v).locks.find? fun kv => kv.1 == k).map Prod.snd = _
  rw [SessionStore.locks_set]
  rfl

end SaveLemmas

/-- **C1** — When the answer phase streams its fragments and no
exception escapes the run body (non-empty query and collected answer,
so the spec-modelled `add_agent_message` validation passes), the run
returns the concatenation of the streamed string fragments, appends
`(query, answer)` as a new turn at the end of the *real* session
history (the one fetched from the store, not the summarized working
view), and saves exactly that appended history back into the session
store under the session's (lazily created, still present) lock. -/
theorem claim_C1 (env : RunEnv) (store0 : SessionStore) (sid : String)
    (frags : List PVal) (d : ℚ)
    (hsid : env.sessionId = some sid)
    (hskip : "answer" ∉ env.skipPhases)
    (hans : env.answerOutcome = .ok (.stream frags) d)
    (hq : env.query ≠ "")
    (hne : collectAnswer (.stream frags) ≠ "")
    (hprune : 0 < (getOrCreateHistory env store0).1.config.pruneTo) :
    ∃ (out : RunOut) (h' : MessageHistory) (msg : Message),
      orchestratorRun env store0 = .ok out ∧
      out.answer = collectAnswer (.stream frags) ∧
      (getOrCreateHistory env store0).1.addAgentMessage env.query out.answer
          env.summarize env.now = .ok h' ∧
      out.history = h' ∧
      out.store.get sid = some h' ∧
      (∃ l, out.store.lockOf sid = some l) ∧
      msg.query = env.query ∧ msg.answer = out.answer ∧
      ∃ pre, h'.messages = pre ++ [msg] := by
  obtain ⟨h2, msg, he⟩ := MessageHistory.addMessage_ok_of_nonempty
    (h := (getOrCreateHistory env store0).1) none env.summarize env.now hq hne
  obtain ⟨hid, hmq, hma, _, _, hmsgs⟩ := MessageHistory.addMessage_ok_spec he
  have hag : (getOrCreateHistory env store0).1.addAgentMessage env.query
      (collectAnswer (.stream frags)) env.summarize env.now = .ok h2 := by
    unfold MessageHistory.addAgentMessage
    rw [he]
    rfl
  simp only [orchestratorRun]
  rw [if_pos hskip, hans]
  rw [show ∀ M : RunMetrics,
    (runPhaseWithTimeout "answer" (env.timeoutFor "answer")
      (PhaseOutcome.ok (.stream frags) d) M).1 = .stream frags from
    fun M => rfl]
  rw [hag]
  refine ⟨_, h2, msg, rfl, rfl, hag, rfl, ?_, ?_, hmq, ?_, ?_⟩
  · show (saveHistory env (getOrCreateHistory env store0).2 h2).get sid = some h2
    unfold saveHistory
    rw [hsid]
    exact SessionStore.get_set_self _ sid h2
  · show ∃ l,
      (saveHistory env (getOrCreateHistory env store0).2 h2).lockOf sid = some l
    unfold saveHistory
    rw [hsid]
    rw [SessionStore.lockOf_set]
    exact ⟨_, SessionStore.lockOf_getLock_self (getOrCreateHistory env store0).2 sid⟩
  · exact hma
  · rw [hmsgs]
    split
    · split
      · exact ⟨_, rfl⟩
      · rw [List.drop_append_of_le_length (by omega)]
        exact ⟨_, rfl⟩
    · exact ⟨_, rfl⟩

/-- Witness for C1 at a fully concrete run environment. -/
theorem claim_C1_witness :
    envC1w.sessionId = some "sess-c1" ∧
    (∃ (out : RunOut) (h' : MessageHistory) (msg : Message),
      orchestratorRun envC1w {} = .ok out ∧
      out.answer =
        collectAnswer (.stream [.str "EURUSD is ", .str "most traded."]) ∧
      (getOrCreateHistory envC1w {}).1.addAgentMessage envC1w.query out.answer
          envC1w.summarize envC1w.now = .ok h' ∧
      out.history = h' ∧
      out.store.get "sess-c1" = some h' ∧
      (∃ l, out.store.lockOf "sess-c1" = some l) ∧
      msg.query = envC1w.query ∧ msg.answer = out.answer ∧
      ∃ pre, h'.messages = pre ++ [msg]) :=
  ⟨rfl,
   claim_C1 envC1w {} "sess-c1" [.str "EURUSD is ", .str "most traded."] 3
     rfl (by decide) rfl (by decide) (by decide) (by decide)⟩

/-- Witness for C4 at a fully concrete run environment. -/
theorem claim_C4_witness :
    completionSignal reflInconclusive = false ∧
    (∃ out : RunOut, orchestratorRun envC4w {} = .ok out ∧
      out.metrics.attempts "plan" = 1 ∧
      out.execCount = 1 ∧
      out.metrics.attempts "reflect" = 1 ∧
      out.metrics.attempts "answer" = 1 ∧
      out.metrics.stopReason = some .maxIterations ∧
      out.answer = collectAnswer (.stream [.str "EURUSD ", .str "moves."])) :=
  ⟨rfl,
   claim_C4 envC4w {} reflInconclusive (.stream [.str "EURUSD ", .str "moves."])
     1 3 rfl rfl rfl rfl rfl rfl (by decide) (by decide)⟩

/-- **C9** — For the malformed generation output
`here is json: {"a":1,}`, the first three strategies (direct parse,
fence stripping, balanced-object extraction) all fail, the repair
strategy removes the trailing comma, and the layered
`_parse_structured_output` succeeds with `{"a": 1}`. -/
theorem claim_C9 :
    parseDirect "here is json: \x7b\"a\":1,\x7d" = none ∧
    parseStripMarkdown "here is json: \x7b\"a\":1,\x7d" = none ∧
    parseExtractJson "here is json: \x7b\"a\":1,\x7d" = none ∧
    parseRepairJson "here is json: \x7b\"a\":1,\x7d" = some (.obj [("a", .jnum 1)]) ∧
    parseStructuredOutput "here is json: \x7b\"a\":1,\x7d" = .ok (.obj [("a", .jnum 1)]) :=
  ⟨rfl, rfl, rfl, rfl, rfl⟩

/-- **C2** — Evaluation of the embedded code at the failing input: a
plan whose first task names the unregistered tool `missing_tool`.
`ToolExecutor.execute_tool` (never invoked during plan execution)
would indeed return the structured `{error, failed: true}` result, but
`TaskExecutor.execute_tasks` records a plain
`{task_id, output, metadata}` entry with *no* `failed` flag for both
tasks: the tool registry is not consulted, contradicting the claimed
failure entry for the unregistered tool. -/
theorem claim_C2 :
    executeTool [] "missing_tool" (some (.dict [])) =
      .dict [("tool", .str "missing_tool"), ("error", .str "Tool not found"),
             ("failed", .bool true)] ∧
    (executeTasks planC2 []).map ResultMap.keys = .ok [.str "t1", .str "t2"] ∧
    (executeTasks planC2 []).map
        (fun r => r.map fun kv => (kv.2.get? "failed").isSome) = .ok [false, false] ∧
    (executeTasks planC2 []).map (fun r => r.map fun kv => kv.2.get? "output") =
      .ok [some (.str "fetch price"), some (.str "summarize")] :=
  ⟨rfl, rfl, rfl, rfl⟩

/-- **C3 counterexample** — At iteration 2 with an *empty* pre-iteration
snapshot and an empty task-results map, the key sets are identical, so
the claimed rule (3) stops with `NoProgress`; the code's guard demands
a truthy (non-empty) snapshot and therefore continues with no stop
reason. -/
theorem counterexample_C3 :
    shouldContinueClaimed (.dict [("reasoning", .str "thin")]) 2 5 [] (some []) =
      (false, some .noProgress) ∧
    shouldContinue (.dict [("reasoning", .str "thin")]) 2 5 [] (some []) =
      (true, none) :=
  ⟨rfl, rfl⟩

/-- **C3 (amended)** — `should_continue` returns the first matching
outcome of the fixed order (1) explicit completion signal, (2)
`iteration ≥ maxIterations`, (3) `iteration > 1` *and the snapshot is
present and non-empty and no task-results key lies outside the
snapshot's key set* (rather than: the key sets are identical), (4)
confidence above 0.9, (5) continue.  Each outcome is characterized
exactly. -/
theorem claim_C3 (r : PVal) (i m : ℕ) (tr : ResultMap) (snap : Option ResultMap) :
    (shouldContinue r i m tr snap = (false, some .reflectionComplete) ↔
      completionSignal r = true) ∧
    (shouldContinue r i m tr snap = (false, some .maxIterations) ↔
      completionSignal r = false ∧ m ≤ i) ∧
    (shouldContinue r i m tr snap = (false, some .noProgress) ↔
      completionSignal r = false ∧ i < m ∧ 1 < i ∧ noNewKeys tr snap = true) ∧
    (shouldContinue r i m tr snap = (false, some .highConfidence) ↔
      completionSignal r = false ∧ i < m ∧ ¬(1 < i ∧ noNewKeys tr snap = true) ∧
        highConfidenceSignal r = true) ∧
    (shouldContinue r i m tr snap = (true, none) ↔
      completionSignal r = false ∧ i < m ∧ ¬(1 < i ∧ noNewKeys tr snap = true) ∧
        highConfidenceSignal r = false) := by
  have hsc : shouldContinue r i m tr snap =
      if completionSignal r then (false, some .reflectionComplete)
      else if m ≤ i then (false, some .maxIterations)
      else if 1 < i && noNewKeys tr snap then (false, some .noProgress)
      else if highConfidenceSignal r then (false, some .highConfidence)
      else (true, none) := rfl
  rw [hsc]
  by_cases h1 : completionSignal r = true
  · simp [h1]
  · rw [Bool.not_eq_true] at h1
    by_cases h2 : m ≤ i
    · simp [h1, h2]
    · by_cases h3 : (1 < i && noNewKeys tr snap) = true
      · rw [Bool.and_eq_true, decide_eq_true_eq] at h3
        simp [h1, h2, h3, Nat.lt_of_not_le h2]
      · rw [Bool.and_eq_true, decide_eq_true_eq] at h3
        by_cases h4 : highConfidenceSignal r = true
        · simp [h1, h2, h3, h4, Nat.lt_of_not_le h2]
        · rw [Bool.not_eq_true] at h4
          simp [h1, h2, h3, h4, Nat.lt_of_not_le h2]

end Dexter
